import Mathlib

/-!
Shallow embedding of `src/Vector/vector.h`: a generic dynamic array `Vector<T>`
built on a raw, untyped memory manager `RawMemory<T>`.

A buffer of capacity `c` is modelled as a list of `c` slots.  A slot holds
`some x` when a live element `x` has been constructed in it and `none` when it
is raw (uninitialized) memory.  Placement-new sets a slot, `std::destroy_at`
clears it, the `std::uninitialized_*` algorithms and the element-shifting loops
are modelled slot by slot in the order the source performs them.  Possibly
throwing paths (`PushBack`/`EmplaceBack` growth, the reallocating branch of
copy assignment) are modelled a second time with an explicit failure oracle
saying which element operation throws, following the `try`/`catch` cleanup of
the source line by line.
-/

set_option linter.all false

namespace VecModel

/-- Model of `RawMemory<T>`: a buffer of element slots.  A slot is `some x`
when a live element is constructed in it, `none` when it is raw memory. -/
structure RawMemory (α : Type) where
  buffer : List (Option α)
deriving DecidableEq

/-- Model of `RawMemory::Capacity`. -/
def RawMemory.Capacity {α : Type} (m : RawMemory α) : Nat := m.buffer.length

/-- Model of `RawMemory::Allocate`: `n` raw (unconstructed) slots. -/
def RawMemory.Allocate (α : Type) (n : Nat) : RawMemory α := ⟨List.replicate n none⟩

/-- Content of slot `i` (what the pointer `buffer_ + i` refers to). -/
def RawMemory.readAt {α : Type} (m : RawMemory α) (i : Nat) : Option α :=
  m.buffer.getD i none

/-- Placement-new of the value `x` into raw slot `i`: `new (buf + i) T(x)`. -/
def RawMemory.constructAt {α : Type} (m : RawMemory α) (i : Nat) (x : α) : RawMemory α :=
  ⟨m.buffer.set i (some x)⟩

/-- Assignment of the value `x` into live slot `i` (`buf[i] = x`); at the
value level it coincides with construction into the slot. -/
def RawMemory.assignAt {α : Type} (m : RawMemory α) (i : Nat) (x : α) : RawMemory α :=
  ⟨m.buffer.set i (some x)⟩

/-- Model of `std::destroy_at(buf + i)`: the slot becomes raw again. -/
def RawMemory.destroyAt {α : Type} (m : RawMemory α) (i : Nat) : RawMemory α :=
  ⟨m.buffer.set i none⟩

/-- Model of `std::destroy_n(buf + first, n)`: destroys slots
`[first, first + n)` (slot order is irrelevant, each slot is cleared once). -/
def RawMemory.destroyN {α : Type} (m : RawMemory α) (first : Nat) : Nat → RawMemory α
  | 0 => m
  | n + 1 => (m.destroyN first n).destroyAt (first + n)

/-- Model of `std::uninitialized_copy_n(src + srcIdx, n, dst + dstIdx)` — and
of `std::uninitialized_move_n` at the level of the values that arrive in the
destination: slot `dstIdx + k` is constructed from slot `srcIdx + k`, in
forward order.  The effect of a move on the source is modelled separately
(`mapRange`). -/
def RawMemory.copyN {α : Type} (src : RawMemory α) (srcIdx : Nat) (n : Nat)
    (dst : RawMemory α) (dstIdx : Nat) : RawMemory α :=
  match n with
  | 0 => dst
  | n + 1 =>
    RawMemory.copyN src (srcIdx + 1) n ⟨dst.buffer.set dstIdx (src.readAt srcIdx)⟩ (dstIdx + 1)

/-- Model of `std::uninitialized_value_construct_n(buf + first, n)` where value
construction of the element type yields `d`. -/
def RawMemory.valueConstructN {α : Type} (m : RawMemory α) (first : Nat) (d : α) :
    Nat → RawMemory α
  | 0 => m
  | n + 1 => (m.valueConstructN first d n).constructAt (first + n) d

/-- Element-wise copy assignment `dst[i] = src[i]` for `i < n`: the loop in
the storage-reusing branch of `Vector::operator=`.  Reads touch only `src`,
so performing slot `n - 1` last is the same as the source's forward loop. -/
def RawMemory.assignRange {α : Type} (src dst : RawMemory α) : Nat → RawMemory α
  | 0 => dst
  | n + 1 => ⟨(RawMemory.assignRange src dst n).buffer.set n (src.readAt n)⟩

/-- Model of `std::move(buf + p + 1, buf + p + 1 + n, buf + p)` in `Erase`:
move-assign each of the `n` slots `[p + 1, p + 1 + n)` one slot to the left,
in forward order (slot `p` first), exactly as `std::move` iterates. -/
def RawMemory.shiftLeftOne {α : Type} (m : RawMemory α) (p : Nat) : Nat → RawMemory α
  | 0 => m
  | n + 1 => RawMemory.shiftLeftOne ⟨m.buffer.set p (m.readAt (p + 1))⟩ (p + 1) n

/-- Model of `std::move_backward(buf + first, buf + first + n, buf + first + n + 1)`
in `Emplace`: move-assign the `n` slots `[first, first + n)` one slot to the
right, processed from the highest index down, exactly as `std::move_backward`
iterates. -/
def RawMemory.shiftRightOne {α : Type} (m : RawMemory α) (first : Nat) : Nat → RawMemory α
  | 0 => m
  | n + 1 => RawMemory.shiftRightOne ⟨m.buffer.set (first + n + 1) (m.readAt (first + n))⟩ first n

/-- Number of live (constructed) elements anywhere in a buffer.  When a
`RawMemory` is destroyed, its destructor frees the memory without destroying
elements, so any live elements still inside at that point are leaked. -/
def RawMemory.liveCount {α : Type} (m : RawMemory α) : Nat :=
  (m.buffer.filterMap id).length

/-- Apply `f` to the live content of each slot in `[first, first + n)`: the
valid-but-unspecified state that move construction leaves source elements in
(`f` is the element type's moved-from transformation). -/
def RawMemory.mapRange {α : Type} (f : α → α) (m : RawMemory α) (first : Nat) :
    Nat → RawMemory α
  | 0 => m
  | n + 1 =>
    ⟨(RawMemory.mapRange f m first n).buffer.set (first + n) ((m.readAt (first + n)).map f)⟩

/-- Model of `Vector<T>`: an owned raw buffer plus the count `size_` of live
elements occupying its leading slots. -/
structure Vector (α : Type) where
  data_ : RawMemory α
  size_ : Nat
deriving DecidableEq

/-- Model of `Vector::Size`. -/
def Vector.Size {α : Type} (v : Vector α) : Nat := v.size_

/-- Model of `Vector::Capacity`. -/
def Vector.Capacity {α : Type} (v : Vector α) : Nat := v.data_.Capacity

/-- Content of element slot `i` of the vector's buffer. -/
def Vector.readElem {α : Type} (v : Vector α) (i : Nat) : Option α := v.data_.readAt i

/-- Observable live prefix of the vector: the first `size_` slots.  For a
well-formed vector holding elements `xs` this is `xs.map some`. -/
def Vector.elemsO {α : Type} (v : Vector α) : List (Option α) :=
  v.data_.buffer.take v.size_

/-- Model of the default constructor `Vector()`: null buffer, size 0. -/
def Vector.mkDefault (α : Type) : Vector α := ⟨⟨[]⟩, 0⟩

/-- Model of `Vector(size_t size)`: allocate exactly `size` slots and value
construct `size` elements (value construction yields `d`). -/
def Vector.mkSized {α : Type} (d : α) (n : Nat) : Vector α :=
  ⟨(RawMemory.Allocate α n).valueConstructN 0 d n, n⟩

/-- Model of the copy constructor `Vector(const Vector&)`: allocate exactly
`other.size_` slots and `uninitialized_copy_n` the live elements. -/
def Vector.copyCtor {α : Type} (v : Vector α) : Vector α :=
  ⟨v.data_.copyN 0 v.size_ (RawMemory.Allocate α v.size_) 0, v.size_⟩

/-- Model of `Vector::MakeNewData`: transfer the `size_` live elements into
`new_data` starting at slot 0, destroy the old live elements and swap buffers.
In this no-failure model the values arriving in the new buffer are the same
whether the trait dispatch of `UninitializedCopyOrMoveN` picks copy or move
construction, and the old buffer is destroyed and dropped either way, so the
transfer is modelled by `copyN`; the dispatch itself is modelled faithfully by
`UninitializedCopyOrMoveNT` below. -/
def Vector.MakeNewData {α : Type} (v : Vector α) (new_data : RawMemory α) : Vector α :=
  ⟨v.data_.copyN 0 v.size_ new_data 0, v.size_⟩

/-- Model of `Vector::Reserve`. -/
def Vector.Reserve {α : Type} (v : Vector α) (new_capacity : Nat) : Vector α :=
  if new_capacity ≤ v.data_.Capacity then v
  else v.MakeNewData (RawMemory.Allocate α new_capacity)

/-- Model of `Vector::Resize` (value construction of new elements yields `d`). -/
def Vector.Resize {α : Type} (v : Vector α) (d : α) (new_size : Nat) : Vector α :=
  if new_size < v.size_ then
    ⟨v.data_.destroyN new_size (v.size_ - new_size), new_size⟩
  else if v.size_ < new_size then
    let v' := v.Reserve new_size
    ⟨v'.data_.valueConstructN v'.size_ d (new_size - v'.size_), new_size⟩
  else
    ⟨v.data_, new_size⟩

/-- Model of `Vector::PushBack` (and, at the value level, of both overloads
and of `EmplaceBack`, whose constructed value is `value`): construct in place
when a free slot exists, otherwise grow to `size_ * 2` (or 1 from capacity 0),
construct the new element at slot `size_` of the new buffer first, then
transfer the old elements. -/
def Vector.PushBack {α : Type} (v : Vector α) (value : α) : Vector α :=
  if v.size_ ≠ v.data_.Capacity then
    ⟨v.data_.constructAt v.size_ value, v.size_ + 1⟩
  else
    let new_data :=
      (RawMemory.Allocate α (if v.size_ = 0 then 1 else v.size_ * 2)).constructAt v.size_ value
    let v' := v.MakeNewData new_data
    ⟨v'.data_, v'.size_ + 1⟩

/-- Model of `Vector::PopBack`. -/
def Vector.PopBack {α : Type} (v : Vector α) : Vector α :=
  if v.size_ ≠ 0 then ⟨v.data_.destroyAt (v.size_ - 1), v.size_ - 1⟩ else v

/-- Model of `Vector::Emplace` at position `p` (the iterator `cpos` is
`cbegin() + p`), inserting the value `x` constructed from the arguments.
`some (w, i)` is the new state `w` together with the index `i` the returned
iterator points at; `none` means the call has no defined result: either
`p > size_` violates the assertion `cpos >= cbegin() && cpos <= cend()`
(which stops the program), or the in-place branch runs on a nonempty vector
with `cpos = cend()` — the source has no `pos == end()` case and calls
`std::move_backward(pos, end() - 1, end())` with `pos = end()`, a range
whose first iterator lies past its last: an invalid range, undefined
behavior.  The three defined source paths are kept apart: in-place with
empty vector, in-place with shifting (`p < size_`), and reallocation. -/
def Vector.Emplace {α : Type} (v : Vector α) (p : Nat) (x : α) :
    Option (Vector α × Nat) :=
  if v.size_ < p then none
  else if v.size_ ≠ v.data_.Capacity then
    if v.size_ = 0 then
      some (⟨v.data_.constructAt 0 x, 1⟩, 0)
    else if p = v.size_ then none
    else
      let m1 := ⟨v.data_.buffer.set v.size_ (v.data_.readAt (v.size_ - 1))⟩
      let m2 := RawMemory.shiftRightOne m1 p (v.size_ - 1 - p)
      let m3 := m2.assignAt p x
      some (⟨m3, v.size_ + 1⟩, p)
  else
    let new_data := RawMemory.Allocate α (if v.size_ = 0 then 1 else v.size_ * 2)
    let nd1 := new_data.constructAt p x
    let nd2 := v.data_.copyN 0 p nd1 0
    let nd3 := v.data_.copyN p (v.size_ - p) nd2 (p + 1)
    some (⟨nd3, v.size_ + 1⟩, p)

/-- Model of `Vector::Insert` (both overloads): forwards to `Emplace`. -/
def Vector.Insert {α : Type} (v : Vector α) (p : Nat) (x : α) :
    Option (Vector α × Nat) :=
  v.Emplace p x

/-- Model of `Vector::Erase` at position `p` (the iterator `cpos` is
`cbegin() + p`, so `p < size_` per the assertion).  Returns the new state and
the index the returned iterator points at. -/
def Vector.Erase {α : Type} (v : Vector α) (p : Nat) : Vector α × Nat :=
  let m := v.data_.shiftLeftOne p (v.size_ - 1 - p)
  (⟨m.destroyAt (v.size_ - 1), v.size_ - 1⟩, p)

/-- Model of `Vector::Swap`: exchange buffers and sizes.  Returns the new
states of `(this, other)`. -/
def Vector.SwapPair {α : Type} (v other : Vector α) : Vector α × Vector α :=
  (⟨other.data_, other.size_⟩, ⟨v.data_, v.size_⟩)

/-- Model of `Vector::operator=(Vector&&)` on distinct objects: the source
implements it as `Swap(other)`.  Returns the new states of
`(destination, source)`. -/
def Vector.moveAssignPair {α : Type} (v other : Vector α) : Vector α × Vector α :=
  v.SwapPair other

/-- Model of `Vector(Vector&&)`: the raw buffer is moved (the moved-from
`RawMemory` becomes null with capacity 0) and `size_` is exchanged with 0.
Returns the new vector and the state the source is left in. -/
def Vector.moveCtorPair {α : Type} (other : Vector α) : Vector α × Vector α :=
  (⟨other.data_, other.size_⟩, ⟨⟨[]⟩, 0⟩)

/-- Model of `Vector::operator=(const Vector&)` on distinct objects (the
`this != &other` guard makes self-assignment the identity). -/
def Vector.copyAssign {α : Type} (v other : Vector α) : Vector α :=
  if v.Capacity < other.size_ then
    other.copyCtor
  else
    let min_size := min v.size_ other.size_
    let m1 := other.data_.assignRange v.data_ min_size
    if other.size_ ≤ v.size_ then
      ⟨m1.destroyN other.size_ (v.size_ - other.size_), other.size_⟩
    else
      ⟨other.data_.copyN v.size_ (other.size_ - v.size_) m1 v.size_, other.size_⟩

/-- The structural invariant of the dynamic array: `size_` never exceeds the
buffer's capacity, the slots `[0, size_)` hold live constructed elements, and
the slots `[size_, capacity)` hold no live element. -/
def Vector.WF {α : Type} (v : Vector α) : Prop :=
  v.size_ ≤ v.Capacity ∧
  ∀ i < v.Capacity,
    if i < v.size_ then (v.readElem i).isSome = true else v.readElem i = none

instance {α : Type} [DecidableEq α] (v : Vector α) : Decidable v.WF := by
  unfold Vector.WF
  infer_instance

/-- Representation predicate: `v` is a well-formed array whose live elements
are exactly the list `xs`, in order. -/
def Vector.Rep {α : Type} (v : Vector α) (xs : List α) : Prop :=
  v.size_ = xs.length ∧ xs.length ≤ v.Capacity ∧
  v.data_.buffer = xs.map some ++ List.replicate (v.Capacity - xs.length) none

instance {α : Type} [DecidableEq α] (v : Vector α) (xs : List α) :
    Decidable (v.Rep xs) := by
  unfold Vector.Rep
  infer_instance

/-- Compile-time properties of the element type consulted by the trait
dispatch in `Vector::UninitializedCopyOrMoveN`. -/
structure Traits where
  nothrowMove : Bool
  copyConstructible : Bool
deriving DecidableEq

/-- The condition of the `if constexpr` in `Vector::UninitializedCopyOrMoveN`:
`std::is_nothrow_move_constructible_v<T> || !std::is_copy_constructible_v<T>`. -/
def Traits.usesMove (tr : Traits) : Bool := tr.nothrowMove || !tr.copyConstructible

/-- Outcome of a possibly-throwing bulk transfer: either it completed, or an
element constructor threw.  Both cases carry the final states of the source
and the destination buffer (after the standard algorithm's own rollback,
which destroys the destination elements it had constructed). -/
inductive TResult (α : Type) where
  | ok (src dst : RawMemory α)
  | thrown (src dst : RawMemory α)
deriving DecidableEq

/-- Source-buffer component of a transfer outcome. -/
def TResult.srcOf {α : Type} : TResult α → RawMemory α
  | .ok s _ => s
  | .thrown s _ => s

/-- Destination-buffer component of a transfer outcome. -/
def TResult.dstOf {α : Type} : TResult α → RawMemory α
  | .ok _ d => d
  | .thrown _ d => d

/-- Model of `std::uninitialized_copy_n(src + srcIdx, n, dst + dstIdx)` with a
possibly throwing element copy constructor: `failAt = some k` with `k < n`
means copying source element `k` throws.  The algorithm destroys the `k`
destination elements it had already constructed; the source is untouched. -/
def RawMemory.copyNT {α : Type} (failAt : Option Nat) (src : RawMemory α)
    (srcIdx n : Nat) (dst : RawMemory α) (dstIdx : Nat) : TResult α :=
  match failAt with
  | some k =>
    if k < n then
      .thrown src ((src.copyN srcIdx k dst dstIdx).destroyN dstIdx k)
    else
      .ok src (src.copyN srcIdx n dst dstIdx)
  | none => .ok src (src.copyN srcIdx n dst dstIdx)

/-- Model of `std::uninitialized_move_n(src + srcIdx, n, dst + dstIdx)` with a
possibly throwing element move constructor: sources of completed moves are
left in the moved-from state `mf`; on a throw at element `k` the algorithm
destroys the `k` destination elements it had constructed. -/
def RawMemory.moveNT {α : Type} (mf : α → α) (failAt : Option Nat) (src : RawMemory α)
    (srcIdx n : Nat) (dst : RawMemory α) (dstIdx : Nat) : TResult α :=
  match failAt with
  | some k =>
    if k < n then
      .thrown (RawMemory.mapRange mf src srcIdx k)
        ((src.copyN srcIdx k dst dstIdx).destroyN dstIdx k)
    else
      .ok (RawMemory.mapRange mf src srcIdx n) (src.copyN srcIdx n dst dstIdx)
  | none => .ok (RawMemory.mapRange mf src srcIdx n) (src.copyN srcIdx n dst dstIdx)

/-- Model of `Vector::UninitializedCopyOrMoveN` with throwing element
operations: the `if constexpr` dispatch picks `uninitialized_move_n` when the
element's move constructor is non-throwing or the element is not copy
constructible, and `uninitialized_copy_n` otherwise.  A non-throwing move
constructor never fails, so `failAt` is discarded in that case. -/
def UninitializedCopyOrMoveNT {α : Type} (tr : Traits) (mf : α → α) (failAt : Option Nat)
    (src : RawMemory α) (srcIdx n : Nat) (dst : RawMemory α) (dstIdx : Nat) : TResult α :=
  if tr.usesMove then
    RawMemory.moveNT mf (if tr.nothrowMove then none else failAt) src srcIdx n dst dstIdx
  else
    RawMemory.copyNT failAt src srcIdx n dst dstIdx

/-- Failure oracle for a single append: which of the fallible steps throws. -/
structure FailPlan where
  allocFails : Bool
  ctorFails : Bool
  transferFailsAt : Option Nat
deriving DecidableEq

/-- Model of `Vector::PushBack` / `EmplaceBack` with throwing allocation and
element operations, following the source's `try`/`catch` cleanup:
`Except.error (v, leaked)` means the exception propagates to the caller with
the array in state `v` and `leaked` live elements abandoned in the discarded
new buffer (whose `RawMemory` destructor frees memory without destroying
elements, so a nonzero `leaked` is a leak).  On the growth path the new
element is constructed first; if the transfer then throws,
`MakeNewDataSafe` destroys the just-constructed element at
`possible_leak_pos` (slot `size_` of the new buffer) and rethrows. -/
def Vector.PushBackT {α : Type} (tr : Traits) (mf : α → α) (fp : FailPlan)
    (v : Vector α) (value : α) : Except (Vector α × Nat) (Vector α) :=
  if v.size_ ≠ v.data_.Capacity then
    if fp.ctorFails then .error (v, 0)
    else .ok ⟨v.data_.constructAt v.size_ value, v.size_ + 1⟩
  else
    if fp.allocFails then .error (v, 0)
    else if fp.ctorFails then .error (v, 0)
    else
      match UninitializedCopyOrMoveNT tr mf fp.transferFailsAt v.data_ 0 v.size_
          ((RawMemory.Allocate α (if v.size_ = 0 then 1 else v.size_ * 2)).constructAt
            v.size_ value) 0 with
      | .thrown src1 dst1 =>
        .error (⟨src1, v.size_⟩, (dst1.destroyAt v.size_).liveCount)
      | .ok _ dst1 => .ok ⟨dst1, v.size_ + 1⟩

/-- Model of `Vector::operator=(const Vector&)` (distinct objects) when the
element copy constructor may throw in the reallocating branch: the fresh copy
`Vector other_copy(other)` is built before the destination is touched, so a
throw during it propagates with the destination unchanged; the partially
copied elements are destroyed by `uninitialized_copy_n` itself and the fresh
buffer is freed.  The storage-reusing branch is the no-throw model (element
copy assignment there carries only the basic guarantee). -/
def Vector.CopyAssignT {α : Type} (failAt : Option Nat) (v other : Vector α) :
    Except (Vector α × Nat) (Vector α) :=
  if v.Capacity < other.size_ then
    match RawMemory.copyNT failAt other.data_ 0 other.size_
        (RawMemory.Allocate α other.size_) 0 with
    | .thrown _ dst1 => .error (v, dst1.liveCount)
    | .ok _ dst1 => .ok ⟨dst1, other.size_⟩
  else
    .ok (v.copyAssign other)

/-- Smallest power of two that is at least `k` (value 1 at `k = 0`). -/
def smallestPow2Ge (k : Nat) : Nat := 2 ^ Nat.clog 2 k

/-! Pointwise characterization of the buffer primitives. -/

theorem RawMemory.Capacity_Allocate {α : Type} (n : Nat) :
    (RawMemory.Allocate α n).Capacity = n := by
  simp [RawMemory.Allocate, RawMemory.Capacity]

theorem RawMemory.readAt_of_cap_le {α : Type} (m : RawMemory α) {j : Nat}
    (h : m.Capacity ≤ j) : m.readAt j = none := by
  unfold RawMemory.readAt
  rw [List.getD_eq_getElem?_getD, List.getElem?_eq_none h]
  rfl

theorem RawMemory.readAt_Allocate {α : Type} (n : Nat) (j : Nat) :
    (RawMemory.Allocate α n).readAt j = none := by
  unfold RawMemory.Allocate RawMemory.readAt
  rw [List.getD_eq_getElem?_getD, List.getElem?_replicate]
  split <;> rfl

theorem RawMemory.Capacity_mkSet {α : Type} (m : RawMemory α) (i : Nat) (o : Option α) :
    (RawMemory.mk (m.buffer.set i o)).Capacity = m.Capacity := by
  simp [RawMemory.Capacity]

theorem RawMemory.readAt_mkSet {α : Type} (m : RawMemory α) (i : Nat) (o : Option α) (j : Nat) :
    (RawMemory.mk (m.buffer.set i o)).readAt j =
      if i = j ∧ j < m.Capacity then o else m.readAt j := by
  unfold RawMemory.readAt RawMemory.Capacity
  rw [List.getD_eq_getElem?_getD, List.getD_eq_getElem?_getD, List.getElem?_set]
  by_cases h1 : i = j
  · subst h1
    by_cases h2 : i < m.buffer.length
    · simp [h2]
    · rw [if_pos rfl, if_neg h2, if_neg (by tauto), List.getElem?_eq_none (by omega)]
  · simp [h1, fun h : i = j ∧ j < m.buffer.length => h1 h.1]

theorem RawMemory.ext_readAt {α : Type} {m₁ m₂ : RawMemory α}
    (hc : m₁.Capacity = m₂.Capacity)
    (h : ∀ i, i < m₁.Capacity → m₁.readAt i = m₂.readAt i) : m₁ = m₂ := by
  cases m₁ with
  | mk b₁ =>
    cases m₂ with
    | mk b₂ =>
      have hb : b₁ = b₂ := by
        apply List.ext_getElem hc
        intro n h₁ h₂
        have := h n h₁
        unfold RawMemory.readAt at this
        rw [List.getD_eq_getElem?_getD, List.getD_eq_getElem?_getD,
          List.getElem?_eq_getElem h₁, List.getElem?_eq_getElem h₂] at this
        exact this
      simp [hb]

theorem RawMemory.Capacity_constructAt {α : Type} (m : RawMemory α) (i : Nat) (x : α) :
    (m.constructAt i x).Capacity = m.Capacity :=
  RawMemory.Capacity_mkSet m i (some x)

theorem RawMemory.readAt_constructAt {α : Type} (m : RawMemory α) (i : Nat) (x : α) (j : Nat) :
    (m.constructAt i x).readAt j =
      if i = j ∧ j < m.Capacity then some x else m.readAt j :=
  RawMemory.readAt_mkSet m i (some x) j

theorem RawMemory.Capacity_assignAt {α : Type} (m : RawMemory α) (i : Nat) (x : α) :
    (m.assignAt i x).Capacity = m.Capacity :=
  RawMemory.Capacity_mkSet m i (some x)

theorem RawMemory.readAt_assignAt {α : Type} (m : RawMemory α) (i : Nat) (x : α) (j : Nat) :
    (m.assignAt i x).readAt j =
      if i = j ∧ j < m.Capacity then some x else m.readAt j :=
  RawMemory.readAt_mkSet m i (some x) j

theorem RawMemory.Capacity_destroyAt {α : Type} (m : RawMemory α) (i : Nat) :
    (m.destroyAt i).Capacity = m.Capacity :=
  RawMemory.Capacity_mkSet m i none

theorem RawMemory.readAt_destroyAt {α : Type} (m : RawMemory α) (i : Nat) (j : Nat) :
    (m.destroyAt i).readAt j = if i = j then none else m.readAt j := by
  rw [RawMemory.destroyAt.eq_def, RawMemory.readAt_mkSet]
  by_cases h1 : i = j
  · subst h1
    by_cases h2 : i < m.Capacity
    · rw [if_pos ⟨rfl, h2⟩, if_pos rfl]
    · rw [if_neg (by tauto), if_pos rfl, RawMemory.readAt_of_cap_le m (by omega)]
  · rw [if_neg (by tauto), if_neg h1]

theorem RawMemory.Capacity_destroyN {α : Type} (m : RawMemory α) (first n : Nat) :
    (m.destroyN first n).Capacity = m.Capacity := by
  induction n with
  | zero => rfl
  | succ n ih => rw [RawMemory.destroyN, RawMemory.Capacity_destroyAt, ih]

theorem RawMemory.readAt_destroyN {α : Type} (m : RawMemory α) (first n : Nat) (j : Nat) :
    (m.destroyN first n).readAt j =
      if first ≤ j ∧ j < first + n then none else m.readAt j := by
  induction n with
  | zero =>
    rw [RawMemory.destroyN, if_neg (by omega)]
  | succ n ih =>
    rw [RawMemory.destroyN, RawMemory.readAt_destroyAt, ih]
    by_cases h1 : first + n = j
    · rw [if_pos h1, if_pos (by omega)]
    · rw [if_neg h1]
      by_cases h2 : first ≤ j ∧ j < first + n
      · rw [if_pos h2, if_pos (by omega)]
      · rw [if_neg h2, if_neg (by omega)]

theorem RawMemory.Capacity_copyN {α : Type} (src : RawMemory α) (srcIdx n : Nat)
    (dst : RawMemory α) (dstIdx : Nat) :
    (src.copyN srcIdx n dst dstIdx).Capacity = dst.Capacity := by
  induction n generalizing srcIdx dst dstIdx with
  | zero => rfl
  | succ n ih => rw [RawMemory.copyN, ih, RawMemory.Capacity_mkSet]

theorem RawMemory.readAt_copyN {α : Type} (src : RawMemory α) (srcIdx n : Nat)
    (dst : RawMemory α) (dstIdx : Nat) (j : Nat) :
    (src.copyN srcIdx n dst dstIdx).readAt j =
      if dstIdx ≤ j ∧ j < dstIdx + n ∧ j < dst.Capacity then
        src.readAt (srcIdx + (j - dstIdx))
      else dst.readAt j := by
  induction n generalizing srcIdx dst dstIdx with
  | zero =>
    rw [RawMemory.copyN, if_neg (by omega)]
  | succ n ih =>
    rw [RawMemory.copyN, ih, RawMemory.Capacity_mkSet, RawMemory.readAt_mkSet]
    by_cases h1 : dstIdx + 1 ≤ j ∧ j < dstIdx + 1 + n ∧ j < dst.Capacity
    · rw [if_pos h1, if_pos (by omega)]
      have : srcIdx + 1 + (j - (dstIdx + 1)) = srcIdx + (j - dstIdx) := by omega
      rw [this]
    · rw [if_neg h1]
      by_cases h2 : dstIdx = j ∧ j < dst.Capacity
      · rw [if_pos h2, if_pos (by omega)]
        have : srcIdx + (j - dstIdx) = srcIdx := by omega
        rw [this]
      · rw [if_neg h2, if_neg (by omega)]

theorem RawMemory.Capacity_valueConstructN {α : Type} (m : RawMemory α) (first : Nat)
    (d : α) (n : Nat) : (m.valueConstructN first d n).Capacity = m.Capacity := by
  induction n with
  | zero => rfl
  | succ n ih => rw [RawMemory.valueConstructN, RawMemory.Capacity_constructAt, ih]

theorem RawMemory.readAt_valueConstructN {α : Type} (m : RawMemory α) (first : Nat)
    (d : α) (n : Nat) (j : Nat) :
    (m.valueConstructN first d n).readAt j =
      if first ≤ j ∧ j < first + n ∧ j < m.Capacity then some d else m.readAt j := by
  induction n with
  | zero =>
    rw [RawMemory.valueConstructN, if_neg (by omega)]
  | succ n ih =>
    rw [RawMemory.valueConstructN, RawMemory.readAt_constructAt,
      RawMemory.Capacity_valueConstructN, ih]
    by_cases h1 : first + n = j ∧ j < m.Capacity
    · simp only [if_pos h1]
      rw [if_pos (by omega)]
    · rw [if_neg h1]
      by_cases h2 : first ≤ j ∧ j < first + n ∧ j < m.Capacity
      · rw [if_pos h2, if_pos (by omega)]
      · rw [if_neg h2, if_neg (by omega)]

theorem RawMemory.Capacity_assignRange {α : Type} (src dst : RawMemory α) (n : Nat) :
    (RawMemory.assignRange src dst n).Capacity = dst.Capacity := by
  induction n with
  | zero => rfl
  | succ n ih => rw [RawMemory.assignRange, RawMemory.Capacity_mkSet, ih]

theorem RawMemory.readAt_assignRange {α : Type} (src dst : RawMemory α) (n : Nat) (j : Nat) :
    (RawMemory.assignRange src dst n).readAt j =
      if j < n ∧ j < dst.Capacity then src.readAt j else dst.readAt j := by
  induction n with
  | zero =>
    rw [RawMemory.assignRange, if_neg (by omega)]
  | succ n ih =>
    rw [RawMemory.assignRange, RawMemory.readAt_mkSet, RawMemory.Capacity_assignRange, ih]
    by_cases h1 : n = j ∧ j < dst.Capacity
    · rw [if_pos h1, if_pos (by omega), h1.1]
    · rw [if_neg h1]
      by_cases h2 : j < n ∧ j < dst.Capacity
      · rw [if_pos h2, if_pos (by omega)]
      · rw [if_neg h2, if_neg (by omega)]

theorem RawMemory.Capacity_shiftLeftOne {α : Type} (m : RawMemory α) (p n : Nat) :
    (m.shiftLeftOne p n).Capacity = m.Capacity := by
  induction n generalizing m p with
  | zero => rfl
  | succ n ih => rw [RawMemory.shiftLeftOne, ih, RawMemory.Capacity_mkSet]

theorem RawMemory.readAt_shiftLeftOne {α : Type} (m : RawMemory α) (p n : Nat) (j : Nat) :
    (m.shiftLeftOne p n).readAt j =
      if p ≤ j ∧ j < p + n then m.readAt (j + 1) else m.readAt j := by
  induction n generalizing m p with
  | zero =>
    rw [RawMemory.shiftLeftOne, if_neg (by omega)]
  | succ n ih =>
    rw [RawMemory.shiftLeftOne, ih]
    by_cases h1 : p + 1 ≤ j ∧ j < p + 1 + n
    · rw [if_pos h1, RawMemory.readAt_mkSet, if_neg (by omega), if_pos (by omega)]
    · rw [if_neg h1, RawMemory.readAt_mkSet]
      by_cases h2 : p = j
      · subst h2
        by_cases h3 : p < m.Capacity
        · rw [if_pos ⟨rfl, h3⟩, if_pos (by omega)]
        · rw [if_neg (by tauto), if_pos (by omega),
            RawMemory.readAt_of_cap_le m (by omega),
            RawMemory.readAt_of_cap_le m (by omega)]
      · rw [if_neg (by tauto), if_neg (by omega)]

theorem RawMemory.Capacity_shiftRightOne {α : Type} (m : RawMemory α) (first n : Nat) :
    (m.shiftRightOne first n).Capacity = m.Capacity := by
  induction n generalizing m with
  | zero => rfl
  | succ n ih => rw [RawMemory.shiftRightOne, ih, RawMemory.Capacity_mkSet]

theorem RawMemory.readAt_shiftRightOne {α : Type} (m : RawMemory α) (first n : Nat) (j : Nat) :
    (m.shiftRightOne first n).readAt j =
      if first + 1 ≤ j ∧ j < first + 1 + n ∧ j < m.Capacity then m.readAt (j - 1)
      else m.readAt j := by
  induction n generalizing m with
  | zero =>
    rw [RawMemory.shiftRightOne, if_neg (by omega)]
  | succ n ih =>
    rw [RawMemory.shiftRightOne, ih, RawMemory.Capacity_mkSet]
    by_cases h1 : first + 1 ≤ j ∧ j < first + 1 + n ∧ j < m.Capacity
    · rw [if_pos h1, if_pos (by omega), RawMemory.readAt_mkSet, if_neg (by omega)]
    · rw [if_neg h1, RawMemory.readAt_mkSet]
      by_cases h2 : first + n + 1 = j ∧ j < m.Capacity
      · rw [if_pos h2, if_pos (by omega)]
        have : j - 1 = first + n := by omega
        rw [this]
      · rw [if_neg h2, if_neg (by omega)]

theorem RawMemory.Capacity_mapRange {α : Type} (f : α → α) (m : RawMemory α) (first n : Nat) :
    (RawMemory.mapRange f m first n).Capacity = m.Capacity := by
  induction n with
  | zero => rfl
  | succ n ih => rw [RawMemory.mapRange, RawMemory.Capacity_mkSet, ih]

theorem RawMemory.readAt_mapRange {α : Type} (f : α → α) (m : RawMemory α) (first n : Nat)
    (j : Nat) :
    (RawMemory.mapRange f m first n).readAt j =
      if first ≤ j ∧ j < first + n then (m.readAt j).map f else m.readAt j := by
  induction n with
  | zero =>
    rw [RawMemory.mapRange, if_neg (by omega)]
  | succ n ih =>
    rw [RawMemory.mapRange, RawMemory.readAt_mkSet, RawMemory.Capacity_mapRange, ih]
    by_cases h1 : first + n = j ∧ j < m.Capacity
    · rw [if_pos h1, if_pos (by omega), h1.1]
    · rw [if_neg h1]
      by_cases h2 : first ≤ j ∧ j < first + n
      · rw [if_pos h2, if_pos (by omega)]
      · rw [if_neg h2]
        by_cases h3 : first + n = j
        · rw [if_pos (by omega)]
          have hc : m.Capacity ≤ j := by
            rcases Nat.lt_or_ge j m.Capacity with h | h
            · exact absurd ⟨h3, h⟩ h1
            · exact h
          rw [RawMemory.readAt_of_cap_le m hc]
          rfl
        · rw [if_neg (by omega)]

theorem RawMemory.liveCount_eq_zero {α : Type} (m : RawMemory α)
    (h : ∀ i, i < m.Capacity → m.readAt i = none) : m.liveCount = 0 := by
  unfold RawMemory.liveCount
  rw [List.length_eq_zero, List.filterMap_eq_nil]
  intro a ha
  rcases List.mem_iff_getElem.mp ha with ⟨i, hi, rfl⟩
  have := h i hi
  unfold RawMemory.readAt at this
  rw [List.getD_eq_getElem?_getD, List.getElem?_eq_getElem hi] at this
  exact this

/-! Bridging between the representation predicate, slot reads and the
invariant. -/

theorem Vector.Rep.readAt {α : Type} {v : Vector α} {xs : List α} (h : v.Rep xs)
    (i : Nat) : v.data_.readAt i = xs[i]? := by
  obtain ⟨hsz, hle, hbuf⟩ := h
  unfold RawMemory.readAt
  rw [hbuf, List.getD_eq_getElem?_getD, List.getElem?_append]
  by_cases hi : i < xs.length
  · rw [if_pos (by simpa using hi), List.getElem?_map, List.getElem?_eq_getElem hi]
    simp
  · rw [if_neg (by simpa using hi), List.getElem?_replicate,
      List.getElem?_eq_none (Nat.le_of_not_lt hi)]
    split <;> rfl

theorem Vector.Rep.size_eq {α : Type} {v : Vector α} {xs : List α} (h : v.Rep xs) :
    v.size_ = xs.length := h.1

theorem Vector.Rep.len_le_cap {α : Type} {v : Vector α} {xs : List α} (h : v.Rep xs) :
    xs.length ≤ v.Capacity := h.2.1

theorem Vector.rep_mk {α : Type} (v : Vector α) (xs : List α)
    (hsz : v.size_ = xs.length) (hle : xs.length ≤ v.Capacity)
    (h : ∀ i, i < v.Capacity → v.data_.readAt i = xs[i]?) : v.Rep xs := by
  refine ⟨hsz, hle, ?_⟩
  have hcap : v.data_.buffer.length = v.Capacity := rfl
  apply List.ext_getElem
  · rw [List.length_append, List.length_map, List.length_replicate, hcap]
    omega
  · intro n h1 h2
    have hr := h n (by omega)
    unfold RawMemory.readAt at hr
    rw [List.getD_eq_getElem?_getD, List.getElem?_eq_getElem h1] at hr
    simp only [Option.getD_some] at hr
    rw [hr]
    by_cases hn : n < xs.length
    · rw [List.getElem_append_left (by simpa using hn), List.getElem_map,
        List.getElem?_eq_getElem hn]
    · rw [List.getElem_append_right (by simpa using Nat.le_of_not_lt hn),
        List.getElem_replicate, List.getElem?_eq_none (Nat.le_of_not_lt hn)]

theorem list_all_some_eq {α : Type} :
    ∀ l : List (Option α), (∀ a ∈ l, a.isSome = true) → l = (l.filterMap id).map some := by
  intro l
  induction l with
  | nil => intro _; rfl
  | cons a t ih =>
    intro h
    have ha : a.isSome = true := h a (List.mem_cons_self a t)
    obtain ⟨x, rfl⟩ := Option.isSome_iff_exists.mp ha
    have ht := ih fun b hb => h b (List.mem_cons_of_mem _ hb)
    calc some x :: t = some x :: (t.filterMap id).map some := by rw [← ht]
    _ = ((some x :: t).filterMap id).map some := by simp

theorem Vector.wf_iff_rep {α : Type} (v : Vector α) : v.WF ↔ ∃ xs, v.Rep xs := by
  constructor
  · rintro ⟨hle, h⟩
    set l := v.data_.buffer.take v.size_ with hl
    have hcap : v.data_.buffer.length = v.Capacity := rfl
    have hall : ∀ a ∈ l, a.isSome = true := by
      intro a ha
      rcases List.mem_iff_getElem?.mp ha with ⟨i, hgi⟩
      rw [hl, List.getElem?_take] at hgi
      by_cases hilt : i < v.size_
      · rw [if_pos hilt] at hgi
        have hic : i < v.Capacity := by
          by_cases hic : i < v.Capacity
          · exact hic
          · rw [List.getElem?_eq_none (by omega : v.data_.buffer.length ≤ i)] at hgi
            simp at hgi
        have := h i hic
        rw [if_pos hilt] at this
        unfold Vector.readElem RawMemory.readAt at this
        rw [List.getD_eq_getElem?_getD, hgi] at this
        simpa using this
      · rw [if_neg hilt] at hgi
        simp at hgi
    set xs := l.filterMap id with hxs
    have hmap : l = xs.map some := list_all_some_eq l hall
    have hlen : xs.length = v.size_ := by
      have := congrArg List.length hmap
      rw [List.length_map] at this
      rw [← this, hl, List.length_take]
      have : v.size_ ≤ v.data_.buffer.length := by omega
      omega
    refine ⟨xs, Vector.rep_mk v xs (by omega) (by omega) ?_⟩
    intro i hi
    by_cases hilt : i < v.size_
    · have h1 : v.data_.readAt i = (l[i]?).getD none := by
        unfold RawMemory.readAt
        rw [List.getD_eq_getElem?_getD, hl, List.getElem?_take, if_pos hilt]
      rw [h1, hmap, List.getElem?_map, List.getElem?_eq_getElem (by omega : i < xs.length)]
      rfl
    · have := h i hi
      rw [if_neg hilt] at this
      unfold Vector.readElem at this
      rw [this, List.getElem?_eq_none (by omega)]
  · rintro ⟨xs, hrep⟩
    refine ⟨by rw [hrep.size_eq]; exact hrep.len_le_cap, ?_⟩
    intro i hi
    unfold Vector.readElem
    rw [hrep.readAt i, hrep.size_eq]
    by_cases hilt : i < xs.length
    · rw [if_pos hilt, List.getElem?_eq_getElem hilt]
      rfl
    · rw [if_neg hilt, List.getElem?_eq_none (Nat.le_of_not_lt hilt)]

theorem Vector.Rep.elemsO_eq {α : Type} {v : Vector α} {xs : List α} (h : v.Rep xs) :
    v.elemsO = xs.map some := by
  obtain ⟨hsz, hle, hbuf⟩ := h
  unfold Vector.elemsO
  rw [hbuf, hsz]
  have : xs.length = (xs.map some).length := by rw [List.length_map]
  rw [this, List.take_left]

/-! Functional behavior of each operation, through the representation
predicate. -/

theorem Vector.data_mk {α : Type} (m : RawMemory α) (s : Nat) :
    (Vector.mk m s).data_ = m := rfl

theorem Vector.size_mk {α : Type} (m : RawMemory α) (s : Nat) :
    (Vector.mk m s).size_ = s := rfl

theorem Vector.Capacity_mk {α : Type} (m : RawMemory α) (s : Nat) :
    (Vector.mk m s).Capacity = m.Capacity := rfl

theorem Vector.mkDefault_rep {α : Type} : (Vector.mkDefault α).Rep [] :=
  ⟨rfl, Nat.le_refl 0, rfl⟩

theorem Vector.mkSized_Capacity {α : Type} (d : α) (n : Nat) :
    (Vector.mkSized d n).Capacity = n := by
  unfold Vector.mkSized
  rw [Vector.Capacity_mk, RawMemory.Capacity_valueConstructN, RawMemory.Capacity_Allocate]

theorem Vector.mkSized_rep {α : Type} (d : α) (n : Nat) :
    (Vector.mkSized d n).Rep (List.replicate n d) := by
  apply Vector.rep_mk
  · rw [List.length_replicate]; rfl
  · rw [List.length_replicate, Vector.mkSized_Capacity]
  · intro j hj
    rw [Vector.mkSized_Capacity] at hj
    show ((RawMemory.Allocate α n).valueConstructN 0 d n).readAt j = _
    rw [RawMemory.readAt_valueConstructN, RawMemory.readAt_Allocate,
      RawMemory.Capacity_Allocate, List.getElem?_replicate, if_pos hj,
      if_pos (by omega)]

theorem Vector.copyCtor_Capacity {α : Type} (v : Vector α) :
    (v.copyCtor).Capacity = v.size_ := by
  unfold Vector.copyCtor
  rw [Vector.Capacity_mk, RawMemory.Capacity_copyN, RawMemory.Capacity_Allocate]

theorem Vector.copyCtor_rep {α : Type} {v : Vector α} {xs : List α} (h : v.Rep xs) :
    (v.copyCtor).Rep xs := by
  have hsz := h.size_eq
  apply Vector.rep_mk
  · exact hsz
  · rw [Vector.copyCtor_Capacity, hsz]
  · intro j hj
    rw [Vector.copyCtor_Capacity, hsz] at hj
    show (v.data_.copyN 0 v.size_ (RawMemory.Allocate α v.size_) 0).readAt j = _
    rw [RawMemory.readAt_copyN, RawMemory.Capacity_Allocate,
      if_pos ⟨by omega, by omega, by omega⟩, h.readAt]
    have h0 : 0 + (j - 0) = j := by omega
    rw [h0]

theorem Vector.reserve_Capacity {α : Type} (v : Vector α) (n : Nat) :
    (v.Reserve n).Capacity = if n ≤ v.Capacity then v.Capacity else n := by
  unfold Vector.Capacity
  by_cases hc : n ≤ v.data_.Capacity
  · have h1 : v.Reserve n = v := by
      unfold Vector.Reserve
      rw [if_pos hc]
    rw [h1, if_pos hc]
  · have h1 : v.Reserve n = ⟨v.data_.copyN 0 v.size_ (RawMemory.Allocate α n) 0, v.size_⟩ := by
      unfold Vector.Reserve Vector.MakeNewData
      rw [if_neg hc]
    rw [h1, if_neg hc, Vector.data_mk, RawMemory.Capacity_copyN, RawMemory.Capacity_Allocate]

theorem Vector.reserve_size {α : Type} (v : Vector α) (n : Nat) :
    (v.Reserve n).size_ = v.size_ := by
  unfold Vector.Reserve Vector.MakeNewData
  by_cases hc : n ≤ v.data_.Capacity
  · rw [if_pos hc]
  · rw [if_neg hc]

theorem Vector.reserve_rep {α : Type} {v : Vector α} {xs : List α} (h : v.Rep xs)
    (n : Nat) : (v.Reserve n).Rep xs := by
  have hsz := h.size_eq
  have hle := h.len_le_cap
  unfold Vector.Capacity at hle
  by_cases hc : n ≤ v.data_.Capacity
  · have h1 : v.Reserve n = v := by
      unfold Vector.Reserve
      rw [if_pos hc]
    rw [h1]; exact h
  · have h1 : v.Reserve n = ⟨v.data_.copyN 0 v.size_ (RawMemory.Allocate α n) 0, v.size_⟩ := by
      unfold Vector.Reserve Vector.MakeNewData
      rw [if_neg hc]
    rw [h1]
    apply Vector.rep_mk
    · rw [Vector.size_mk, hsz]
    · rw [Vector.Capacity_mk, RawMemory.Capacity_copyN, RawMemory.Capacity_Allocate]
      omega
    · intro j hj
      rw [Vector.Capacity_mk, RawMemory.Capacity_copyN, RawMemory.Capacity_Allocate] at hj
      rw [Vector.data_mk, RawMemory.readAt_copyN, RawMemory.Capacity_Allocate]
      by_cases hjs : j < v.size_
      · rw [if_pos ⟨by omega, by omega, by omega⟩, h.readAt]
        have h0 : 0 + (j - 0) = j := by omega
        rw [h0]
      · rw [if_neg (by omega), RawMemory.readAt_Allocate,
          List.getElem?_eq_none (by omega)]

theorem Vector.pushBack_Capacity {α : Type} (v : Vector α) (x : α) :
    (v.PushBack x).Capacity =
      if v.size_ = v.Capacity then (if v.size_ = 0 then 1 else v.size_ * 2)
      else v.Capacity := by
  unfold Vector.Capacity
  by_cases hc : v.size_ = v.data_.Capacity
  · have h1 : v.PushBack x =
        ⟨v.data_.copyN 0 v.size_
          ((RawMemory.Allocate α (if v.size_ = 0 then 1 else v.size_ * 2)).constructAt
            v.size_ x) 0, v.size_ + 1⟩ := by
      unfold Vector.PushBack Vector.MakeNewData
      rw [if_neg (by omega)]
    rw [h1, if_pos hc, Vector.data_mk, RawMemory.Capacity_copyN,
      RawMemory.Capacity_constructAt, RawMemory.Capacity_Allocate]
  · have h1 : v.PushBack x = ⟨v.data_.constructAt v.size_ x, v.size_ + 1⟩ := by
      unfold Vector.PushBack
      rw [if_pos hc]
    rw [h1, if_neg hc, Vector.data_mk, RawMemory.Capacity_constructAt]

theorem Vector.pushBack_rep {α : Type} {v : Vector α} {xs : List α} (h : v.Rep xs)
    (x : α) : (v.PushBack x).Rep (xs ++ [x]) := by
  have hsz := h.size_eq
  have hle := h.len_le_cap
  unfold Vector.Capacity at hle
  by_cases hc : v.size_ = v.data_.Capacity
  · have h1 : v.PushBack x =
        ⟨v.data_.copyN 0 v.size_
          ((RawMemory.Allocate α (if v.size_ = 0 then 1 else v.size_ * 2)).constructAt
            v.size_ x) 0, v.size_ + 1⟩ := by
      unfold Vector.PushBack Vector.MakeNewData
      rw [if_neg (by omega)]
    have hnew : xs.length + 1 ≤ (if v.size_ = 0 then 1 else v.size_ * 2) := by
      by_cases h0 : v.size_ = 0
      · rw [if_pos h0]; omega
      · rw [if_neg h0]; omega
    rw [h1]
    apply Vector.rep_mk
    · rw [Vector.size_mk, List.length_append, List.length_singleton, hsz]
    · rw [Vector.Capacity_mk, RawMemory.Capacity_copyN, RawMemory.Capacity_constructAt,
        RawMemory.Capacity_Allocate, List.length_append, List.length_singleton]
      exact hnew
    · intro j hj
      rw [Vector.Capacity_mk, RawMemory.Capacity_copyN, RawMemory.Capacity_constructAt,
        RawMemory.Capacity_Allocate] at hj
      rw [Vector.data_mk, RawMemory.readAt_copyN, RawMemory.Capacity_constructAt,
        RawMemory.Capacity_Allocate, RawMemory.readAt_constructAt,
        RawMemory.Capacity_Allocate, RawMemory.readAt_Allocate,
        List.getElem?_append]
      by_cases hjs : j < v.size_
      · rw [if_pos ⟨by omega, by omega, by omega⟩, if_pos (by omega), h.readAt]
        have h0 : 0 + (j - 0) = j := by omega
        rw [h0]
      · rw [if_neg (by omega)]
        by_cases hje : v.size_ = j
        · rw [if_pos ⟨hje, hj⟩, if_neg (by omega), ← hje, hsz, Nat.sub_self]
          rfl
        · rw [if_neg (by tauto), if_neg (by omega), List.getElem?_eq_none
            (by rw [List.length_singleton]; omega)]
  · have h1 : v.PushBack x = ⟨v.data_.constructAt v.size_ x, v.size_ + 1⟩ := by
      unfold Vector.PushBack
      rw [if_pos hc]
    rw [h1]
    apply Vector.rep_mk
    · rw [Vector.size_mk, List.length_append, List.length_singleton, hsz]
    · rw [Vector.Capacity_mk, RawMemory.Capacity_constructAt, List.length_append,
        List.length_singleton]
      omega
    · intro j hj
      rw [Vector.Capacity_mk, RawMemory.Capacity_constructAt] at hj
      rw [Vector.data_mk, RawMemory.readAt_constructAt, List.getElem?_append]
      by_cases hje : v.size_ = j
      · rw [if_pos ⟨hje, hj⟩, if_neg (by omega), ← hje, hsz, Nat.sub_self]
        rfl
      · rw [if_neg (by tauto), h.readAt]
        by_cases hjs : j < v.size_
        · rw [if_pos (by omega)]
        · rw [if_neg (by omega), List.getElem?_eq_none (by omega),
            List.getElem?_eq_none (by rw [List.length_singleton]; omega)]

theorem Vector.popBack_rep {α : Type} {v : Vector α} {xs : List α} (h : v.Rep xs) :
    (v.PopBack).Rep (xs.take (xs.length - 1)) := by
  have hsz := h.size_eq
  have hle := h.len_le_cap
  unfold Vector.Capacity at hle
  by_cases hc : v.size_ ≠ 0
  · have h1 : v.PopBack = ⟨v.data_.destroyAt (v.size_ - 1), v.size_ - 1⟩ := by
      unfold Vector.PopBack
      rw [if_pos hc]
    rw [h1]
    apply Vector.rep_mk
    · rw [Vector.size_mk, List.length_take, hsz]
      omega
    · rw [Vector.Capacity_mk, RawMemory.Capacity_destroyAt, List.length_take]
      omega
    · intro j hj
      rw [Vector.Capacity_mk, RawMemory.Capacity_destroyAt] at hj
      rw [Vector.data_mk, RawMemory.readAt_destroyAt, List.getElem?_take]
      by_cases hje : v.size_ - 1 = j
      · rw [if_pos hje, if_neg (by omega)]
      · rw [if_neg hje, h.readAt]
        by_cases hjs : j < xs.length - 1
        · rw [if_pos hjs]
        · rw [if_neg hjs, List.getElem?_eq_none (by omega)]
  · have h1 : v.PopBack = v := by
      unfold Vector.PopBack
      rw [if_neg hc]
    have hxs : xs = [] := List.length_eq_zero.mp (by omega)
    rw [h1]
    simpa [hxs] using h

theorem getElem?_insertList {α : Type} (xs : List α) (x : α) (p j : Nat)
    (hp : p ≤ xs.length) :
    (xs.take p ++ x :: xs.drop p)[j]? =
      if j < p then xs[j]? else if j = p then some x else xs[j - 1]? := by
  have hlt : (List.take p xs).length = p := by rw [List.length_take]; omega
  rw [List.getElem?_append, hlt]
  by_cases h1 : j < p
  · rw [if_pos h1, if_pos h1, List.getElem?_take, if_pos h1]
  · rw [if_neg h1, if_neg h1]
    by_cases h2 : j = p
    · subst h2
      rw [Nat.sub_self, List.getElem?_cons_zero, if_pos rfl]
    · rw [if_neg h2]
      have h3 : j - p = (j - p - 1) + 1 := by omega
      rw [h3, List.getElem?_cons_succ, List.getElem?_drop]
      have h4 : p + (j - p - 1) = j - 1 := by omega
      rw [h4]

theorem getElem?_eraseList {α : Type} (xs : List α) (p j : Nat) (hp : p < xs.length) :
    (xs.take p ++ xs.drop (p + 1))[j]? = if j < p then xs[j]? else xs[j + 1]? := by
  have hlt : (List.take p xs).length = p := by rw [List.length_take]; omega
  rw [List.getElem?_append, hlt]
  by_cases h1 : j < p
  · rw [if_pos h1, if_pos h1, List.getElem?_take, if_pos h1]
  · rw [if_neg h1, if_neg h1, List.getElem?_drop]
    have h2 : p + 1 + (j - p) = j + 1 := by omega
    rw [h2]

theorem getElem?_resizeList {α : Type} (xs : List α) (d : α) (n j : Nat) :
    (xs.take n ++ List.replicate (n - xs.length) d)[j]? =
      if j < n ∧ j < xs.length then xs[j]?
      else if j < n then some d else none := by
  have hlt : (List.take n xs).length = min n xs.length := List.length_take n xs
  rw [List.getElem?_append, hlt]
  by_cases h1 : j < min n xs.length
  · rw [if_pos h1, if_pos (by omega), List.getElem?_take, if_pos (by omega)]
  · rw [if_neg h1, if_neg (by omega), List.getElem?_replicate]
    by_cases h2 : j < n
    · rw [if_pos (by omega), if_pos h2]
    · rw [if_neg (by omega), if_neg h2]

theorem Vector.erase_ret {α : Type} (v : Vector α) (p : Nat) : (v.Erase p).2 = p := rfl

theorem Vector.erase_Capacity {α : Type} (v : Vector α) (p : Nat) :
    ((v.Erase p).1).Capacity = v.Capacity := by
  unfold Vector.Erase
  rw [Vector.Capacity_mk, RawMemory.Capacity_destroyAt, RawMemory.Capacity_shiftLeftOne]
  rfl

theorem Vector.erase_rep {α : Type} {v : Vector α} {xs : List α} (h : v.Rep xs)
    {p : Nat} (hp : p < xs.length) :
    ((v.Erase p).1).Rep (xs.take p ++ xs.drop (p + 1)) := by
  have hsz := h.size_eq
  have hle := h.len_le_cap
  unfold Vector.Capacity at hle
  have hlen : (xs.take p ++ xs.drop (p + 1)).length = xs.length - 1 := by
    rw [List.length_append, List.length_take, List.length_drop]
    omega
  apply Vector.rep_mk
  · show v.size_ - 1 = _
    rw [hlen]; omega
  · rw [hlen, Vector.erase_Capacity]
    unfold Vector.Capacity
    omega
  · intro j hj
    rw [Vector.erase_Capacity] at hj
    unfold Vector.Capacity at hj
    show ((v.data_.shiftLeftOne p (v.size_ - 1 - p)).destroyAt (v.size_ - 1)).readAt j = _
    rw [RawMemory.readAt_destroyAt, RawMemory.readAt_shiftLeftOne,
      getElem?_eraseList xs p j hp]
    by_cases h1 : v.size_ - 1 = j
    · rw [if_pos h1, if_neg (by omega), List.getElem?_eq_none (by omega)]
    · rw [if_neg h1]
      by_cases h2 : p ≤ j ∧ j < p + (v.size_ - 1 - p)
      · rw [if_pos h2, h.readAt, if_neg (by omega)]
      · rw [if_neg h2, h.readAt]
        by_cases h3 : j < p
        · rw [if_pos h3]
        · rw [if_neg h3, List.getElem?_eq_none (by omega),
            List.getElem?_eq_none (by omega)]

/-- Functional behavior of `Emplace` on every path where the source's
behavior is defined (in-place on an empty vector, in-place shifting with
`p < size_`, and reallocation): the call returns the requested index and the
element sequence with `x` inserted at position `p`. -/
theorem Vector.emplace_rep {α : Type} {v : Vector α} {xs : List α} (h : v.Rep xs)
    {p : Nat} (hp : p ≤ xs.length)
    (hdef : p < xs.length ∨ xs.length = 0 ∨ xs.length = v.Capacity) (x : α) :
    ∃ w : Vector α, v.Emplace p x = some (w, p) ∧
      w.Rep (xs.take p ++ x :: xs.drop p) := by
  have hsz := h.size_eq
  have hle := h.len_le_cap
  unfold Vector.Capacity at hle hdef
  have hlen : (xs.take p ++ x :: xs.drop p).length = xs.length + 1 := by
    rw [List.length_append, List.length_take, List.length_cons, List.length_drop]
    omega
  by_cases h1 : v.size_ ≠ v.data_.Capacity
  · by_cases h2 : v.size_ = 0
    · have hxs : xs = [] := List.length_eq_zero.mp (by omega)
      have hp0 : p = 0 := by omega
      refine ⟨⟨v.data_.constructAt 0 x, 1⟩, ?_, ?_⟩
      · unfold Vector.Emplace
        rw [if_neg (by omega), if_pos h1, if_pos h2, hp0]
      · rw [hxs, hp0]
        apply Vector.rep_mk
        · rfl
        · rw [Vector.Capacity_mk, RawMemory.Capacity_constructAt]
          show 1 ≤ v.data_.Capacity
          omega
        · intro j hj
          rw [Vector.Capacity_mk, RawMemory.Capacity_constructAt] at hj
          rw [Vector.data_mk, RawMemory.readAt_constructAt]
          by_cases hj0 : j = 0
          · subst hj0
            rw [if_pos ⟨rfl, hj⟩]
            rfl
          · rw [if_neg (by tauto), h.readAt, hxs, List.getElem?_eq_none (by simp),
              List.getElem?_eq_none (by simp; omega)]
    · have hps : p < v.size_ := by
        rcases hdef with h3 | h3 | h3
        · omega
        · omega
        · omega
      refine ⟨⟨((RawMemory.mk (v.data_.buffer.set v.size_
          (v.data_.readAt (v.size_ - 1)))).shiftRightOne
            p (v.size_ - 1 - p)).assignAt p x, v.size_ + 1⟩, ?_, ?_⟩
      · unfold Vector.Emplace
        rw [if_neg (by omega), if_pos h1, if_neg h2, if_neg (by omega)]
      · apply Vector.rep_mk
        · rw [Vector.size_mk, hlen, hsz]
        · rw [Vector.Capacity_mk, RawMemory.Capacity_assignAt,
            RawMemory.Capacity_shiftRightOne, RawMemory.Capacity_mkSet, hlen]
          omega
        · intro j hj
          rw [Vector.Capacity_mk, RawMemory.Capacity_assignAt,
            RawMemory.Capacity_shiftRightOne, RawMemory.Capacity_mkSet] at hj
          rw [Vector.data_mk, RawMemory.readAt_assignAt, RawMemory.Capacity_shiftRightOne,
            RawMemory.Capacity_mkSet, RawMemory.readAt_shiftRightOne,
            RawMemory.Capacity_mkSet, getElem?_insertList xs x p j hp]
          by_cases hjp : p = j
          · rw [if_pos ⟨hjp, hj⟩, if_neg (by omega), if_pos (by omega)]
          · rw [if_neg (by tauto)]
            by_cases hsh : p + 1 ≤ j ∧ j < p + 1 + (v.size_ - 1 - p) ∧ j < v.data_.Capacity
            · rw [if_pos hsh, RawMemory.readAt_mkSet, if_neg (by omega), h.readAt,
                if_neg (by omega), if_neg (by omega)]
            · rw [if_neg hsh, RawMemory.readAt_mkSet]
              by_cases hje : v.size_ = j
              · rw [if_pos ⟨hje, by omega⟩, h.readAt, if_neg (by omega),
                  if_neg (by omega)]
                have h4 : j - 1 = v.size_ - 1 := by omega
                rw [h4]
              · rw [if_neg (by tauto), h.readAt]
                by_cases hjlt : j < p
                · rw [if_pos hjlt]
                · rw [if_neg hjlt, if_neg (by omega), List.getElem?_eq_none (by omega),
                    List.getElem?_eq_none (by omega)]
  · have hnew : v.size_ + 1 ≤ (if v.size_ = 0 then 1 else v.size_ * 2) := by
      by_cases h0 : v.size_ = 0
      · rw [if_pos h0]; omega
      · rw [if_neg h0]; omega
    refine ⟨⟨v.data_.copyN p (v.size_ - p)
        (v.data_.copyN 0 p
          ((RawMemory.Allocate α (if v.size_ = 0 then 1 else v.size_ * 2)).constructAt
            p x) 0) (p + 1), v.size_ + 1⟩, ?_, ?_⟩
    · unfold Vector.Emplace
      rw [if_neg (by omega), if_neg h1]
    · apply Vector.rep_mk
      · rw [Vector.size_mk, hlen, hsz]
      · rw [Vector.Capacity_mk, RawMemory.Capacity_copyN, RawMemory.Capacity_copyN,
          RawMemory.Capacity_constructAt, RawMemory.Capacity_Allocate, hlen]
        omega
      · intro j hj
        rw [Vector.Capacity_mk, RawMemory.Capacity_copyN, RawMemory.Capacity_copyN,
          RawMemory.Capacity_constructAt, RawMemory.Capacity_Allocate] at hj
        rw [Vector.data_mk, RawMemory.readAt_copyN, RawMemory.Capacity_copyN,
          RawMemory.Capacity_constructAt, RawMemory.Capacity_Allocate,
          RawMemory.readAt_copyN, RawMemory.Capacity_constructAt,
          RawMemory.Capacity_Allocate, RawMemory.readAt_constructAt,
          RawMemory.Capacity_Allocate, RawMemory.readAt_Allocate,
          getElem?_insertList xs x p j hp]
        by_cases hc1 : p + 1 ≤ j ∧ j < p + 1 + (v.size_ - p) ∧
            j < (if v.size_ = 0 then 1 else v.size_ * 2)
        · rw [if_pos hc1, h.readAt, if_neg (by omega), if_neg (by omega)]
          have h4 : p + (j - (p + 1)) = j - 1 := by omega
          rw [h4]
        · rw [if_neg hc1]
          by_cases hc2 : 0 ≤ j ∧ j < 0 + p ∧ j < (if v.size_ = 0 then 1 else v.size_ * 2)
          · rw [if_pos hc2, h.readAt, if_pos (by omega)]
            have h4 : 0 + (j - 0) = j := by omega
            rw [h4]
          · rw [if_neg hc2]
            by_cases hc3 : p = j
            · rw [if_pos ⟨hc3, by omega⟩, if_neg (by omega), if_pos (by omega)]
            · rw [if_neg (by tauto), if_neg (by omega), if_neg (by tauto),
                List.getElem?_eq_none (by omega)]

theorem Vector.resize_rep {α : Type} {v : Vector α} {xs : List α} (h : v.Rep xs)
    (d : α) (n : Nat) :
    (v.Resize d n).Rep (xs.take n ++ List.replicate (n - xs.length) d) := by
  have hsz := h.size_eq
  have hle := h.len_le_cap
  unfold Vector.Capacity at hle
  have hlen : (xs.take n ++ List.replicate (n - xs.length) d).length = n ⊔ 0 ⊓ n := by
    rw [List.length_append, List.length_take, List.length_replicate]
    omega
  by_cases h1 : n < v.size_
  · have hr : v.Resize d n = ⟨v.data_.destroyN n (v.size_ - n), n⟩ := by
      unfold Vector.Resize
      rw [if_pos h1]
    rw [hr]
    apply Vector.rep_mk
    · rw [Vector.size_mk, List.length_append, List.length_take, List.length_replicate]
      omega
    · rw [Vector.Capacity_mk, RawMemory.Capacity_destroyN, List.length_append,
        List.length_take, List.length_replicate]
      omega
    · intro j hj
      rw [Vector.Capacity_mk, RawMemory.Capacity_destroyN] at hj
      rw [Vector.data_mk, RawMemory.readAt_destroyN, getElem?_resizeList, h.readAt]
      by_cases h2 : n ≤ j ∧ j < n + (v.size_ - n)
      · rw [if_pos h2, if_neg (by omega), if_neg (by omega)]
      · by_cases h3 : j < n
        · rw [if_neg (by omega), if_pos (by omega)]
        · rw [if_neg (by omega), if_neg (by omega), if_neg (by omega),
            List.getElem?_eq_none (by omega)]
  · by_cases h2 : v.size_ < n
    · have hr : v.Resize d n =
          ⟨(v.Reserve n).data_.valueConstructN (v.Reserve n).size_ d
            (n - (v.Reserve n).size_), n⟩ := by
        unfold Vector.Resize
        rw [if_neg h1, if_pos h2]
      have hrep := Vector.reserve_rep h n
      have hrs : (v.Reserve n).size_ = v.size_ := Vector.reserve_size v n
      have hrc : (v.Reserve n).Capacity = if n ≤ v.Capacity then v.Capacity else n :=
        Vector.reserve_Capacity v n
      have hncap : n ≤ (v.Reserve n).Capacity := by
        rw [hrc]
        by_cases h3 : n ≤ v.Capacity
        · rw [if_pos h3]; exact h3
        · rw [if_neg h3]
      rw [hr]
      apply Vector.rep_mk
      · rw [Vector.size_mk, List.length_append, List.length_take, List.length_replicate]
        omega
      · rw [Vector.Capacity_mk, RawMemory.Capacity_valueConstructN, List.length_append,
          List.length_take, List.length_replicate]
        show _ ≤ (v.Reserve n).Capacity
        omega
      · intro j hj
        rw [Vector.Capacity_mk, RawMemory.Capacity_valueConstructN] at hj
        have hjr : j < (v.Reserve n).Capacity := hj
        rw [Vector.data_mk, RawMemory.readAt_valueConstructN, hrs,
          getElem?_resizeList, hrep.readAt]
        by_cases h3 : v.size_ ≤ j ∧ j < v.size_ + (n - v.size_)
        · rw [if_pos ⟨h3.1, h3.2, hjr⟩, if_neg (by omega), if_pos (by omega)]
        · by_cases h4 : j < v.size_
          · rw [if_neg (by omega), if_pos (by omega)]
          · rw [if_neg (by omega), if_neg (by omega), if_neg (by omega),
              List.getElem?_eq_none (by omega)]
    · have hn : n = v.size_ := by omega
      have hr : v.Resize d n = ⟨v.data_, n⟩ := by
        unfold Vector.Resize
        rw [if_neg h1, if_neg (by omega)]
      rw [hr]
      apply Vector.rep_mk
      · rw [Vector.size_mk, List.length_append, List.length_take, List.length_replicate]
        omega
      · rw [Vector.Capacity_mk, List.length_append, List.length_take,
          List.length_replicate]
        omega
      · intro j hj
        rw [Vector.data_mk, getElem?_resizeList, h.readAt]
        by_cases h3 : j < n
        · rw [if_pos (by omega)]
        · rw [if_neg (by omega), if_neg (by omega), List.getElem?_eq_none (by omega)]

theorem Vector.copyAssign_Capacity {α : Type} (v other : Vector α) :
    (v.copyAssign other).Capacity =
      if v.Capacity < other.size_ then other.size_ else v.Capacity := by
  unfold Vector.copyAssign
  by_cases h1 : v.Capacity < other.size_
  · rw [if_pos h1, if_pos h1, Vector.copyCtor_Capacity]
  · rw [if_neg h1, if_neg h1]
    by_cases h2 : other.size_ ≤ v.size_
    · rw [if_pos h2, Vector.Capacity_mk, RawMemory.Capacity_destroyN,
        RawMemory.Capacity_assignRange]
      rfl
    · rw [if_neg h2, Vector.Capacity_mk, RawMemory.Capacity_copyN,
        RawMemory.Capacity_assignRange]
      rfl

theorem Vector.copyAssign_rep {α : Type} {v other : Vector α} {xs ys : List α}
    (hv : v.Rep xs) (ho : other.Rep ys) : (v.copyAssign other).Rep ys := by
  have hszv := hv.size_eq
  have hlev := hv.len_le_cap
  have hszo := ho.size_eq
  have hleo := ho.len_le_cap
  unfold Vector.Capacity at hlev hleo
  unfold Vector.copyAssign
  by_cases h1 : v.Capacity < other.size_
  · rw [if_pos h1]
    exact Vector.copyCtor_rep ho
  · rw [if_neg h1]
    unfold Vector.Capacity at h1
    by_cases h2 : other.size_ ≤ v.size_
    · rw [if_pos h2]
      apply Vector.rep_mk
      · rw [Vector.size_mk, hszo]
      · rw [Vector.Capacity_mk, RawMemory.Capacity_destroyN,
          RawMemory.Capacity_assignRange]
        omega
      · intro j hj
        rw [Vector.Capacity_mk, RawMemory.Capacity_destroyN,
          RawMemory.Capacity_assignRange] at hj
        rw [Vector.data_mk, RawMemory.readAt_destroyN, RawMemory.readAt_assignRange]
        by_cases h3 : other.size_ ≤ j ∧ j < other.size_ + (v.size_ - other.size_)
        · rw [if_pos h3, List.getElem?_eq_none (by omega)]
        · rw [if_neg h3]
          by_cases h4 : j < min v.size_ other.size_ ∧ j < v.data_.Capacity
          · rw [if_pos h4, ho.readAt]
          · rw [if_neg h4, hv.readAt, List.getElem?_eq_none (by omega),
              List.getElem?_eq_none (by omega)]
    · rw [if_neg h2]
      apply Vector.rep_mk
      · rw [Vector.size_mk, hszo]
      · rw [Vector.Capacity_mk, RawMemory.Capacity_copyN,
          RawMemory.Capacity_assignRange]
        omega
      · intro j hj
        rw [Vector.Capacity_mk, RawMemory.Capacity_copyN,
          RawMemory.Capacity_assignRange] at hj
        rw [Vector.data_mk, RawMemory.readAt_copyN, RawMemory.Capacity_assignRange,
          RawMemory.readAt_assignRange]
        by_cases h3 : v.size_ ≤ j ∧ j < v.size_ + (other.size_ - v.size_) ∧
            j < v.data_.Capacity
        · rw [if_pos h3, ho.readAt]
          have h4 : v.size_ + (j - v.size_) = j := by omega
          rw [h4]
        · rw [if_neg h3]
          by_cases h4 : j < min v.size_ other.size_ ∧ j < v.data_.Capacity
          · rw [if_pos h4, ho.readAt]
          · rw [if_neg h4, hv.readAt, List.getElem?_eq_none (by omega),
              List.getElem?_eq_none (by omega)]

theorem Vector.pushBack_size {α : Type} (v : Vector α) (x : α) :
    (v.PushBack x).size_ = v.size_ + 1 := by
  unfold Vector.PushBack Vector.MakeNewData
  by_cases hc : v.size_ ≠ v.data_.Capacity
  · rw [if_pos hc]
  · rw [if_neg hc]

/-- After the rollback of a failed transfer into a fresh growth buffer and the
`destroy_at(possible_leak_pos)` of the `catch` in `MakeNewDataSafe`, the
abandoned new buffer holds no live element. -/
theorem RawMemory.liveCount_growth_cleanup {α : Type} (src : RawMemory α)
    (k size newcap : Nat) (x : α) :
    (((src.copyN 0 k ((RawMemory.Allocate α newcap).constructAt size x) 0).destroyN 0
        k).destroyAt size).liveCount = 0 := by
  apply RawMemory.liveCount_eq_zero
  intro i hi
  rw [RawMemory.readAt_destroyAt]
  by_cases h1 : size = i
  · rw [if_pos h1]
  · rw [if_neg h1, RawMemory.readAt_destroyN]
    by_cases h2 : 0 ≤ i ∧ i < 0 + k
    · rw [if_pos h2]
    · rw [if_neg h2, RawMemory.readAt_copyN, if_neg (by tauto),
        RawMemory.readAt_constructAt, if_neg (by tauto), RawMemory.readAt_Allocate]

/-- After the rollback of a failed `uninitialized_copy_n` into a fresh buffer,
the abandoned buffer holds no live element. -/
theorem RawMemory.liveCount_copy_cleanup {α : Type} (src : RawMemory α) (k cap : Nat) :
    ((src.copyN 0 k (RawMemory.Allocate α cap) 0).destroyN 0 k).liveCount = 0 := by
  apply RawMemory.liveCount_eq_zero
  intro i hi
  rw [RawMemory.readAt_destroyN]
  by_cases h1 : 0 ≤ i ∧ i < 0 + k
  · rw [if_pos h1]
  · rw [if_neg h1, RawMemory.readAt_copyN, if_neg (by tauto), RawMemory.readAt_Allocate]

/-- Characterization of a transfer that threw: some element index `k < n`
failed, the destination was rolled back by the algorithm, and the source is
untouched on the copy path and moved-from up to `k` on the throwing move
path. -/
theorem UninitializedCopyOrMoveNT_thrown {α : Type} (tr : Traits) (mf : α → α)
    (failAt : Option Nat) (src : RawMemory α) (srcIdx n : Nat) (dst : RawMemory α)
    (dstIdx : Nat) {s d : RawMemory α}
    (h : UninitializedCopyOrMoveNT tr mf failAt src srcIdx n dst dstIdx = .thrown s d) :
    ∃ k, failAt = some k ∧ k < n ∧
      d = (src.copyN srcIdx k dst dstIdx).destroyN dstIdx k ∧
      ((tr.usesMove = false ∧ s = src) ∨
        (tr.usesMove = true ∧ tr.nothrowMove = false ∧
          s = RawMemory.mapRange mf src srcIdx k)) := by
  unfold UninitializedCopyOrMoveNT at h
  by_cases hm : tr.usesMove
  · rw [if_pos hm] at h
    by_cases hnt : tr.nothrowMove
    · rw [if_pos hnt] at h
      unfold RawMemory.moveNT at h
      cases h
    · rw [if_neg hnt] at h
      unfold RawMemory.moveNT at h
      cases failAt with
      | none => cases h
      | some k =>
        simp only at h
        by_cases hk : k < n
        · rw [if_pos hk] at h
          cases h
          exact ⟨k, rfl, hk, rfl, Or.inr ⟨by simpa using hm, by simpa using hnt, rfl⟩⟩
        · rw [if_neg hk] at h
          cases h
  · rw [if_neg hm] at h
    unfold RawMemory.copyNT at h
    cases failAt with
    | none => cases h
    | some k =>
      simp only at h
      by_cases hk : k < n
      · rw [if_pos hk] at h
        cases h
        exact ⟨k, rfl, hk, rfl, Or.inl ⟨by simpa using hm, rfl⟩⟩
      · rw [if_neg hk] at h
        cases h

/-- The copy path of the transfer never modifies the source buffer. -/
theorem UninitializedCopyOrMoveNT_copy_src {α : Type} (tr : Traits) (mf : α → α)
    (failAt : Option Nat) (src : RawMemory α) (srcIdx n : Nat) (dst : RawMemory α)
    (dstIdx : Nat) (h : tr.usesMove = false) :
    (UninitializedCopyOrMoveNT tr mf failAt src srcIdx n dst dstIdx).srcOf = src := by
  unfold UninitializedCopyOrMoveNT
  rw [if_neg (by simp [h])]
  unfold RawMemory.copyNT
  cases failAt with
  | none => rfl
  | some k =>
    simp only
    by_cases hk : k < n
    · rw [if_pos hk]
      rfl
    · rw [if_neg hk]
      rfl

/-- Capacity invariant maintained by the growth policy across appends: the
buffer is either still the initial null buffer, or a power of two that the
live count occupies more than half of. -/
def CapInv {α : Type} (v : Vector α) : Prop :=
  (v.size_ = 0 ∧ v.Capacity = 0) ∨
    (1 ≤ v.size_ ∧ v.size_ ≤ v.Capacity ∧ v.Capacity < 2 * v.size_ ∧
      ∃ m, v.Capacity = 2 ^ m)

theorem Vector.pushBack_capInv {α : Type} {v : Vector α} (h : CapInv v) (x : α) :
    CapInv (v.PushBack x) := by
  have hsz := Vector.pushBack_size v x
  have hcap := Vector.pushBack_Capacity v x
  rcases h with ⟨h0, hc0⟩ | ⟨h1, h2, h3, m, hm⟩
  · right
    rw [if_pos (by omega), if_pos h0] at hcap
    refine ⟨by omega, by omega, by omega, 0, by omega⟩
  · by_cases he : v.size_ = v.Capacity
    · right
      rw [if_pos he, if_neg (by omega)] at hcap
      refine ⟨by omega, by omega, by omega, m + 1, ?_⟩
      rw [hcap, Nat.pow_succ]
      omega
    · right
      rw [if_neg he] at hcap
      exact ⟨by omega, by omega, by omega, m, by omega⟩

theorem capInv_bound {α : Type} {v : Vector α} (h : CapInv v) :
    v.Capacity ≤ smallestPow2Ge v.size_ := by
  rcases h with ⟨h0, hc0⟩ | ⟨h1, h2, h3, m, hm⟩
  · rw [hc0]
    exact Nat.zero_le _
  · unfold smallestPow2Ge
    rw [hm]
    apply Nat.pow_le_pow_right (by omega)
    by_contra hlt
    push_neg at hlt
    have hm1 : 1 ≤ m := by omega
    have hsm : v.size_ ≤ 2 ^ (m - 1) :=
      (Nat.le_pow_iff_clog_le (by omega)).mpr (by omega)
    have h2m : 2 ^ m = 2 * 2 ^ (m - 1) := by
      conv_lhs => rw [show m = (m - 1) + 1 by omega]
      rw [Nat.pow_succ]
      omega
    omega

theorem Vector.foldl_pushBack_rep {α : Type} :
    ∀ (ys : List α) (v : Vector α) (xs : List α), v.Rep xs →
      (ys.foldl Vector.PushBack v).Rep (xs ++ ys) := by
  intro ys
  induction ys with
  | nil =>
    intro v xs h
    simpa using h
  | cons y ys ih =>
    intro v xs h
    have h1 := ih (v.PushBack y) (xs ++ [y]) (Vector.pushBack_rep h y)
    rw [List.foldl_cons]
    have h2 : (xs ++ [y]) ++ ys = xs ++ y :: ys := by simp
    rw [← h2]
    exact h1

theorem Vector.foldl_pushBack_capInv {α : Type} :
    ∀ (ys : List α) (v : Vector α), CapInv v → CapInv (ys.foldl Vector.PushBack v) := by
  intro ys
  induction ys with
  | nil => intro v h; exact h
  | cons y ys ih =>
    intro v h
    rw [List.foldl_cons]
    exact ih (v.PushBack y) (Vector.pushBack_capInv h y)

/-! Claim theorems. -/

/-- C1, counterexample to the claim as stated: for a move-only element type
whose move constructor may throw (`Traits.mk false false`, moved-from state
modelled by `fun _ => 0`), a `PushBack` on the full well-formed array
`[5, 6]` whose transfer throws at element 1 propagates the failure with
nothing leaked and size and capacity unchanged, but the array's element
values have changed: element 0 is left moved-from (`0` instead of `5`).  So
the array is not left observably unchanged. -/
theorem C1_counterexample :
    (⟨⟨[some 5, some 6]⟩, 2⟩ : Vector Nat).WF ∧
      Vector.PushBackT ⟨false, false⟩ (fun _ => 0) ⟨false, false, some 1⟩
        (⟨⟨[some 5, some 6]⟩, 2⟩ : Vector Nat) 7 =
        .error (⟨⟨[some 0, some 6]⟩, 2⟩, 0) ∧
      (⟨⟨[some 0, some 6]⟩, 2⟩ : Vector Nat).elemsO ≠
        (⟨⟨[some 5, some 6]⟩, 2⟩ : Vector Nat).elemsO :=
  ⟨by decide, rfl, by decide⟩

/-- C1 (amended): every failing append (`PushBack`/`EmplaceBack`) — whether
the allocation, the construction of the new element, or the transfer throws —
leaves size and capacity unchanged and destroys the just-constructed element
before propagating (nothing live is leaked in the abandoned buffer); and
whenever the element type is copy constructible or has a non-throwing move
constructor (so the transfer never uses a throwing move), the array is left
completely unchanged, element values included.  Only for a non-copyable
element type with a throwing move constructor can already-moved source
elements be left in their moved-from state. -/
theorem C1_pushBack_failure_safety {α : Type} (tr : Traits) (mf : α → α)
    (fp : FailPlan) (v : Vector α) (x : α) (v' : Vector α) (n : Nat)
    (herr : v.PushBackT tr mf fp x = .error (v', n)) :
    n = 0 ∧ v'.size_ = v.size_ ∧ v'.Capacity = v.Capacity ∧
      ((tr.copyConstructible = true ∨ tr.nothrowMove = true) → v' = v) := by
  unfold Vector.PushBackT at herr
  by_cases h1 : v.size_ ≠ v.data_.Capacity
  · rw [if_pos h1] at herr
    by_cases h2 : fp.ctorFails
    · rw [if_pos h2] at herr
      simp only [Except.error.injEq, Prod.mk.injEq] at herr
      obtain ⟨rfl, rfl⟩ := herr
      exact ⟨rfl, rfl, rfl, fun _ => rfl⟩
    · rw [if_neg h2] at herr
      cases herr
  · rw [if_neg h1] at herr
    by_cases h2 : fp.allocFails
    · rw [if_pos h2] at herr
      simp only [Except.error.injEq, Prod.mk.injEq] at herr
      obtain ⟨rfl, rfl⟩ := herr
      exact ⟨rfl, rfl, rfl, fun _ => rfl⟩
    · rw [if_neg h2] at herr
      by_cases h3 : fp.ctorFails
      · rw [if_pos h3] at herr
        simp only [Except.error.injEq, Prod.mk.injEq] at herr
        obtain ⟨rfl, rfl⟩ := herr
        exact ⟨rfl, rfl, rfl, fun _ => rfl⟩
      · rw [if_neg h3] at herr
        cases hU : UninitializedCopyOrMoveNT tr mf fp.transferFailsAt v.data_ 0 v.size_
            ((RawMemory.Allocate α (if v.size_ = 0 then 1 else v.size_ * 2)).constructAt
              v.size_ x) 0 with
        | ok s1 d1 =>
          rw [hU] at herr
          cases herr
        | thrown s1 d1 =>
          rw [hU] at herr
          simp only [Except.error.injEq, Prod.mk.injEq] at herr
          obtain ⟨heq, hn⟩ := herr
          subst heq
          obtain ⟨k, hfa, hk, hd, hsrc⟩ :=
            UninitializedCopyOrMoveNT_thrown tr mf fp.transferFailsAt v.data_ 0 v.size_
              _ 0 hU
          constructor
          · rw [← hn, hd, RawMemory.liveCount_growth_cleanup]
          constructor
          · rfl
          constructor
          · show s1.Capacity = v.data_.Capacity
            rcases hsrc with ⟨_, rfl⟩ | ⟨_, _, rfl⟩
            · rfl
            · exact RawMemory.Capacity_mapRange mf v.data_ 0 k
          · intro hcm
            rcases hsrc with ⟨_, rfl⟩ | ⟨hm, hnt, rfl⟩
            · rfl
            · exfalso
              unfold Traits.usesMove at hm
              rcases hcm with hcc | hntm
              · rw [hcc, hnt] at hm
                simp at hm
              · rw [hntm] at hnt
                cases hnt

/-- C1 witness: a copy-constructible element type whose transfer throws at
element 1 during a growth append on the full array `[5, 6]`: the failure
leaks nothing and the array is returned unchanged. -/
theorem C1_pushBack_failure_safety_witness :
    (0 : Nat) = 0 ∧
      (⟨⟨[some 5, some 6]⟩, 2⟩ : Vector Nat).size_ =
        (⟨⟨[some 5, some 6]⟩, 2⟩ : Vector Nat).size_ ∧
      (⟨⟨[some 5, some 6]⟩, 2⟩ : Vector Nat).Capacity =
        (⟨⟨[some 5, some 6]⟩, 2⟩ : Vector Nat).Capacity ∧
      (((⟨false, true⟩ : Traits).copyConstructible = true ∨
          (⟨false, true⟩ : Traits).nothrowMove = true) →
        (⟨⟨[some 5, some 6]⟩, 2⟩ : Vector Nat) = ⟨⟨[some 5, some 6]⟩, 2⟩) :=
  C1_pushBack_failure_safety ⟨false, true⟩ id ⟨false, false, some 1⟩
    ⟨⟨[some 5, some 6]⟩, 2⟩ 7 ⟨⟨[some 5, some 6]⟩, 2⟩ 0 rfl

/-- C2, counterexample to the claim as stated: move-assigning `v = move(u)`
with `v = [1]` and `u = [2]` transfers `u`'s buffer to `v`, but the source
`u` is left holding `v`'s former buffer and element (`[1]`, size 1): the
implementation is `Swap(other)`, so the source is not emptied. -/
theorem C2_counterexample :
    Vector.moveAssignPair (⟨⟨[some 1]⟩, 1⟩ : Vector Nat) ⟨⟨[some 2]⟩, 1⟩ =
        (⟨⟨[some 2]⟩, 1⟩, ⟨⟨[some 1]⟩, 1⟩) ∧
      (Vector.moveAssignPair (⟨⟨[some 1]⟩, 1⟩ : Vector Nat) ⟨⟨[some 2]⟩, 1⟩).2.size_ ≠ 0 :=
  ⟨rfl, by decide⟩

/-- C2 (amended): after move-assignment `v = move(u)` on distinct objects,
ownership of `u`'s buffer and elements is transferred to `v`, and the source
`u` receives `v`'s former buffer and size (swap semantics); consequently the
source is emptied (size 0, no live elements) exactly when the destination
was empty before the assignment, not in general. -/
theorem C2_moveAssign_swaps {α : Type} (v u : Vector α) (xs : List α)
    (h : v.Rep xs) :
    (v.moveAssignPair u).1.elemsO = u.elemsO ∧
      (v.moveAssignPair u).1.size_ = u.size_ ∧
      (v.moveAssignPair u).1.Capacity = u.Capacity ∧
      (v.moveAssignPair u).2.size_ = v.size_ ∧
      (v.moveAssignPair u).2.Capacity = v.Capacity ∧
      (v.size_ = 0 →
        (v.moveAssignPair u).2.size_ = 0 ∧
          (v.moveAssignPair u).2.data_.liveCount = 0) := by
  refine ⟨rfl, rfl, rfl, rfl, rfl, ?_⟩
  intro h0
  refine ⟨h0, ?_⟩
  show v.data_.liveCount = 0
  have hxs : xs = [] := List.length_eq_zero.mp (by rw [← h.size_eq]; exact h0)
  apply RawMemory.liveCount_eq_zero
  intro i hi
  rw [h.readAt, hxs, List.getElem?_eq_none (by simp)]

/-- C2 witness: move-assigning into an empty destination transfers the
source's buffer and leaves the source empty with no live element. -/
theorem C2_moveAssign_swaps_witness :
    ((Vector.mkDefault Nat).moveAssignPair ⟨⟨[some 2]⟩, 1⟩).1.elemsO =
        (⟨⟨[some 2]⟩, 1⟩ : Vector Nat).elemsO ∧
      ((Vector.mkDefault Nat).moveAssignPair ⟨⟨[some 2]⟩, 1⟩).1.size_ =
        (⟨⟨[some 2]⟩, 1⟩ : Vector Nat).size_ ∧
      ((Vector.mkDefault Nat).moveAssignPair ⟨⟨[some 2]⟩, 1⟩).1.Capacity =
        (⟨⟨[some 2]⟩, 1⟩ : Vector Nat).Capacity ∧
      ((Vector.mkDefault Nat).moveAssignPair ⟨⟨[some 2]⟩, 1⟩).2.size_ =
        (Vector.mkDefault Nat).size_ ∧
      ((Vector.mkDefault Nat).moveAssignPair ⟨⟨[some 2]⟩, 1⟩).2.Capacity =
        (Vector.mkDefault Nat).Capacity ∧
      ((Vector.mkDefault Nat).size_ = 0 →
        ((Vector.mkDefault Nat).moveAssignPair ⟨⟨[some 2]⟩, 1⟩).2.size_ = 0 ∧
          ((Vector.mkDefault Nat).moveAssignPair ⟨⟨[some 2]⟩, 1⟩).2.data_.liveCount = 0) :=
  C2_moveAssign_swaps (Vector.mkDefault Nat) ⟨⟨[some 2]⟩, 1⟩ [] Vector.mkDefault_rep

/-- C3: during a growth transfer the array uses move construction exactly
when the element type's move constructor is non-throwing or the element type
is not copy constructible (the `if constexpr` condition of
`UninitializedCopyOrMoveN`), and in every other case it uses copy
construction, which leaves the source buffer untouched whether the transfer
completes or throws. -/
theorem C3_transfer_dispatch {α : Type} (tr : Traits) :
    (tr.usesMove = true ↔
        (tr.nothrowMove = true ∨ tr.copyConstructible = false)) ∧
      ∀ (mf : α → α) (failAt : Option Nat) (src : RawMemory α) (srcIdx n : Nat)
        (dst : RawMemory α) (dstIdx : Nat), tr.usesMove = false →
          (UninitializedCopyOrMoveNT tr mf failAt src srcIdx n dst dstIdx).srcOf =
            src := by
  constructor
  · rcases tr with ⟨nm, cc⟩
    cases nm <;> cases cc <;> simp [Traits.usesMove]
  · intro mf failAt src srcIdx n dst dstIdx h
    exact UninitializedCopyOrMoveNT_copy_src tr mf failAt src srcIdx n dst dstIdx h

/-- C3 witness: a copy-constructible element type with a throwing move
constructor copies, and a failing copy at element 0 leaves the source
buffer `[1]` untouched. -/
theorem C3_transfer_dispatch_witness :
    (UninitializedCopyOrMoveNT (⟨false, true⟩ : Traits) id (some 0)
        (⟨[some 1]⟩ : RawMemory Nat) 0 1 ⟨[none]⟩ 0).srcOf = ⟨[some 1]⟩ :=
  (C3_transfer_dispatch (α := Nat) ⟨false, true⟩).2 id (some 0) ⟨[some 1]⟩ 0 1
    ⟨[none]⟩ 0 (by decide)

/-- C4: for every sequence of successful appends starting from a
default-constructed array, the size equals the number of appends, the
elements are the appended values in order, the capacity never exceeds the
smallest power of two at least the number of appends, and every growth step
(append with size equal to capacity) allocates a buffer of capacity
`max (previous size * 2) 1`. -/
theorem C4_appends_from_empty {α : Type} (xs : List α) (u : Vector α) (y : α) :
    (xs.foldl Vector.PushBack (Vector.mkDefault α)).Size = xs.length ∧
      (xs.foldl Vector.PushBack (Vector.mkDefault α)).elemsO = xs.map some ∧
      (xs.foldl Vector.PushBack (Vector.mkDefault α)).Capacity ≤
        smallestPow2Ge xs.length ∧
      (u.size_ = u.Capacity → (u.PushBack y).Capacity = max (u.size_ * 2) 1) := by
  have hrep := Vector.foldl_pushBack_rep xs (Vector.mkDefault α) [] Vector.mkDefault_rep
  rw [List.nil_append] at hrep
  have hinv := Vector.foldl_pushBack_capInv xs (Vector.mkDefault α) (Or.inl ⟨rfl, rfl⟩)
  refine ⟨?_, hrep.elemsO_eq, ?_, ?_⟩
  · show (xs.foldl Vector.PushBack (Vector.mkDefault α)).size_ = xs.length
    exact hrep.size_eq
  · have hb := capInv_bound hinv
    rw [hrep.size_eq] at hb
    exact hb
  · intro he
    rw [Vector.pushBack_Capacity, if_pos he]
    by_cases h0 : u.size_ = 0
    · rw [if_pos h0, h0]
      omega
    · rw [if_neg h0]
      omega

/-- C4 witness: appending 1, 2, 3 from empty yields size 3, elements
`[1, 2, 3]` and capacity at most 4; a full one-element array grows to
capacity `max (1 * 2) 1 = 2`. -/
theorem C4_appends_from_empty_witness :
    (([1, 2, 3] : List Nat).foldl Vector.PushBack (Vector.mkDefault Nat)).Size =
        ([1, 2, 3] : List Nat).length ∧
      (([1, 2, 3] : List Nat).foldl Vector.PushBack (Vector.mkDefault Nat)).elemsO =
        ([1, 2, 3] : List Nat).map some ∧
      (([1, 2, 3] : List Nat).foldl Vector.PushBack (Vector.mkDefault Nat)).Capacity ≤
        smallestPow2Ge ([1, 2, 3] : List Nat).length ∧
      ((⟨⟨[some 9]⟩, 1⟩ : Vector Nat).PushBack 5).Capacity =
        max ((⟨⟨[some 9]⟩, 1⟩ : Vector Nat).size_ * 2) 1 := by
  have h := C4_appends_from_empty ([1, 2, 3] : List Nat) (⟨⟨[some 9]⟩, 1⟩ : Vector Nat) 5
  exact ⟨h.1, h.2.1, h.2.2.1, h.2.2.2 (by decide)⟩

/-- C5: copy assignment from a distinct source gives the destination the
source's size and element values; the capacity never shrinks — it is
unchanged when the source fits in the current buffer and becomes exactly the
source's size when it does not; and in the reallocating branch a throw while
copying leaves the destination untouched and leaks nothing (the fresh copy is
built and rolled back before the destination is modified). -/
theorem C5_copyAssign_semantics {α : Type} (v other : Vector α) (xs ys : List α)
    (hv : v.Rep xs) (ho : other.Rep ys) :
    (v.copyAssign other).size_ = other.size_ ∧
      (v.copyAssign other).elemsO = other.elemsO ∧
      v.Capacity ≤ (v.copyAssign other).Capacity ∧
      (other.size_ ≤ v.Capacity → (v.copyAssign other).Capacity = v.Capacity) ∧
      (v.Capacity < other.size_ → (v.copyAssign other).Capacity = other.size_) ∧
      ∀ (failAt : Option Nat) (v' : Vector α) (n : Nat),
        v.CopyAssignT failAt other = .error (v', n) → v' = v ∧ n = 0 := by
  have hrep := Vector.copyAssign_rep hv ho
  have hcap := Vector.copyAssign_Capacity v other
  refine ⟨?_, ?_, ?_, ?_, ?_, ?_⟩
  · rw [hrep.size_eq, ho.size_eq]
  · rw [hrep.elemsO_eq, ho.elemsO_eq]
  · rw [hcap]
    by_cases h1 : v.Capacity < other.size_
    · rw [if_pos h1]
      omega
    · rw [if_neg h1]
  · intro h1
    rw [hcap, if_neg (by omega)]
  · intro h1
    rw [hcap, if_pos h1]
  · intro failAt v' n herr
    unfold Vector.CopyAssignT at herr
    by_cases h1 : v.Capacity < other.size_
    · rw [if_pos h1] at herr
      cases hC : RawMemory.copyNT failAt other.data_ 0 other.size_
          (RawMemory.Allocate α other.size_) 0 with
      | ok s1 d1 =>
        rw [hC] at herr
        cases herr
      | thrown s1 d1 =>
        rw [hC] at herr
        simp only [Except.error.injEq, Prod.mk.injEq] at herr
        obtain ⟨rfl, hn⟩ := herr
        refine ⟨rfl, ?_⟩
        unfold RawMemory.copyNT at hC
        cases failAt with
        | none => cases hC
        | some k =>
          simp only at hC
          by_cases hk : k < other.size_
          · rw [if_pos hk] at hC
            cases hC
            rw [← hn, RawMemory.liveCount_copy_cleanup]
          · rw [if_neg hk] at hC
            cases hC
    · rw [if_neg h1] at herr
      cases herr

/-- C5 witness: copy-assigning `[9, 8]` into the one-element array `[1]`
(capacity 1) reallocates to capacity 2, copies both elements, and a throw
while copying element 1 leaves the destination `[1]` untouched with nothing
leaked. -/
theorem C5_copyAssign_semantics_witness :
    ((⟨⟨[some 1]⟩, 1⟩ : Vector Nat).copyAssign ⟨⟨[some 9, some 8]⟩, 2⟩).size_ =
        (⟨⟨[some 9, some 8]⟩, 2⟩ : Vector Nat).size_ ∧
      ((⟨⟨[some 1]⟩, 1⟩ : Vector Nat).copyAssign ⟨⟨[some 9, some 8]⟩, 2⟩).elemsO =
        (⟨⟨[some 9, some 8]⟩, 2⟩ : Vector Nat).elemsO ∧
      (⟨⟨[some 1]⟩, 1⟩ : Vector Nat).Capacity ≤
        ((⟨⟨[some 1]⟩, 1⟩ : Vector Nat).copyAssign ⟨⟨[some 9, some 8]⟩, 2⟩).Capacity ∧
      ((⟨⟨[some 9, some 8]⟩, 2⟩ : Vector Nat).size_ ≤
          (⟨⟨[some 1]⟩, 1⟩ : Vector Nat).Capacity →
        ((⟨⟨[some 1]⟩, 1⟩ : Vector Nat).copyAssign ⟨⟨[some 9, some 8]⟩, 2⟩).Capacity =
          (⟨⟨[some 1]⟩, 1⟩ : Vector Nat).Capacity) ∧
      ((⟨⟨[some 1]⟩, 1⟩ : Vector Nat).copyAssign ⟨⟨[some 9, some 8]⟩, 2⟩).Capacity =
        (⟨⟨[some 9, some 8]⟩, 2⟩ : Vector Nat).size_ ∧
      ((⟨⟨[some 1]⟩, 1⟩ : Vector Nat) = ⟨⟨[some 1]⟩, 1⟩ ∧ (0 : Nat) = 0) := by
  have h := C5_copyAssign_semantics (⟨⟨[some 1]⟩, 1⟩ : Vector Nat)
    ⟨⟨[some 9, some 8]⟩, 2⟩ [1] [9, 8] (by decide) (by decide)
  exact ⟨h.1, h.2.1, h.2.2.1, h.2.2.2.1, h.2.2.2.2.1 (by decide),
    h.2.2.2.2.2 (some 1) ⟨⟨[some 1]⟩, 1⟩ 0 rfl⟩

/-- C6: `Reserve n` with `n` at most the current capacity is a complete
no-op — the array, its buffer identity included, is returned unchanged — and
with `n` beyond the current capacity it reallocates to capacity exactly `n`,
leaving size and element values unchanged. -/
theorem C6_reserve_noop_or_grow {α : Type} (v : Vector α) (xs : List α)
    (h : v.Rep xs) (n : Nat) :
    (n ≤ v.Capacity → v.Reserve n = v) ∧
      (v.Capacity < n →
        (v.Reserve n).Capacity = n ∧ (v.Reserve n).size_ = v.size_ ∧
          (v.Reserve n).elemsO = v.elemsO) := by
  constructor
  · intro hn
    have hn' : n ≤ v.data_.Capacity := hn
    unfold Vector.Reserve
    rw [if_pos hn']
  · intro hn
    refine ⟨?_, Vector.reserve_size v n, ?_⟩
    · rw [Vector.reserve_Capacity, if_neg (by omega)]
    · rw [(Vector.reserve_rep h n).elemsO_eq, h.elemsO_eq]

/-- C6 witness: reserving 4 slots on a one-element array of capacity 2 grows
the capacity to exactly 4 and preserves size and elements. -/
theorem C6_reserve_noop_or_grow_witness :
    (4 ≤ (⟨⟨[some 1, none]⟩, 1⟩ : Vector Nat).Capacity →
        (⟨⟨[some 1, none]⟩, 1⟩ : Vector Nat).Reserve 4 = ⟨⟨[some 1, none]⟩, 1⟩) ∧
      (((⟨⟨[some 1, none]⟩, 1⟩ : Vector Nat).Reserve 4).Capacity = 4 ∧
        ((⟨⟨[some 1, none]⟩, 1⟩ : Vector Nat).Reserve 4).size_ =
          (⟨⟨[some 1, none]⟩, 1⟩ : Vector Nat).size_ ∧
        ((⟨⟨[some 1, none]⟩, 1⟩ : Vector Nat).Reserve 4).elemsO =
          (⟨⟨[some 1, none]⟩, 1⟩ : Vector Nat).elemsO) := by
  have h := C6_reserve_noop_or_grow (⟨⟨[some 1, none]⟩, 1⟩ : Vector Nat) [1]
    (by decide) 4
  exact ⟨h.1, h.2 (by decide)⟩

/-- C7, the code bug the claim exposes: erasing the last element of `[1, 2]`
(position 1, a valid non-end position) and then inserting the erased value 2
back at position 1 makes the insert land at the end position of the shrunk
nonempty array with spare capacity.  The source takes the in-place branch,
which has no `pos == end()` case, and executes
`std::move_backward(pos, end() - 1, end())` with `pos = end()` — an invalid
range, undefined behavior — so nothing restores the sequence (the model
yields no defined result).  At any earlier position the roundtrip does
restore the sequence exactly, as the contrast conjunct shows on
`[1, 2, 3]`. -/
theorem C7_roundtrip_undefined_at_last_position :
    (⟨⟨[some 1, some 2]⟩, 2⟩ : Vector Nat).WF ∧
      ((⟨⟨[some 1, some 2]⟩, 2⟩ : Vector Nat).Erase 1).1.Insert 1 2 = none ∧
      ((⟨⟨[some 1, some 2, some 3, none]⟩, 3⟩ : Vector Nat).Erase 1).1.Insert 1 2 =
        some (⟨⟨[some 1, some 2, some 3, none]⟩, 3⟩, 1) :=
  ⟨by decide, rfl, rfl⟩

/-- C8, the code bug the claim exposes: `Emplace`/`Insert` at position
`size_` (admitted by the source's assertion `cpos <= cend()`) on a nonempty
well-formed array with spare capacity runs
`std::move_backward(end(), end() - 1, end())` — an invalid range, undefined
behavior that is free to read and write slots outside the live prefix — so
this public operation does not preserve the structural invariant; the model
yields no defined result for it. -/
theorem C8_emplace_end_invalid_range :
    (⟨⟨[some 1, some 2, none]⟩, 2⟩ : Vector Nat).WF ∧
      (⟨⟨[some 1, some 2, none]⟩, 2⟩ : Vector Nat).size_ <
        (⟨⟨[some 1, some 2, none]⟩, 2⟩ : Vector Nat).Capacity ∧
      (⟨⟨[some 1, some 2, none]⟩, 2⟩ : Vector Nat).Emplace 2 5 = none ∧
      (⟨⟨[some 1, some 2, none]⟩, 2⟩ : Vector Nat).Insert 2 5 = none :=
  ⟨by decide, by decide, rfl, rfl⟩

/-- C9, the code bug the claim exposes: the in-place path of
`Emplace`/`Insert` at the requested position `cend()` of a nonempty array
(here `[7]` with capacity 3, position 1) executes the invalid-range
`std::move_backward` — undefined behavior — so no iterator to a newly
inserted element is returned there; the claim's returned-iterator property
cannot hold for every requested position of the in-place path.  The contrast
conjuncts show the defined cases behaving as claimed: the in-place shift at
position 0 and the reallocating end-insert on a full array both return the
requested index with the new element there. -/
theorem C9_insert_end_no_defined_iterator :
    (⟨⟨[some 7, none, none]⟩, 1⟩ : Vector Nat).WF ∧
      (⟨⟨[some 7, none, none]⟩, 1⟩ : Vector Nat).Emplace 1 9 = none ∧
      (⟨⟨[some 7, none, none]⟩, 1⟩ : Vector Nat).Insert 1 9 = none ∧
      (⟨⟨[some 7, none, none]⟩, 1⟩ : Vector Nat).Emplace 0 9 =
        some (⟨⟨[some 9, some 7, none]⟩, 2⟩, 0) ∧
      (⟨⟨[some 1]⟩, 1⟩ : Vector Nat).Emplace 1 5 =
        some (⟨⟨[some 1, some 5]⟩, 2⟩, 1) :=
  ⟨by decide, rfl, rfl, rfl, rfl⟩

/-- C10: `Vector(n)` allocates capacity exactly `n` and yields
`size = capacity = n`; the copy constructor allocates capacity equal to the
source's size, not the source's capacity, so the copy's capacity is strictly
smaller than the original's whenever the original has spare capacity. -/
theorem C10_ctor_capacities {α : Type} (d : α) (n : Nat) (v : Vector α)
    (xs : List α) (h : v.Rep xs) :
    (Vector.mkSized d n).size_ = n ∧ (Vector.mkSized d n).Capacity = n ∧
      (v.copyCtor).size_ = v.size_ ∧ (v.copyCtor).Capacity = v.size_ ∧
      (v.copyCtor).elemsO = v.elemsO ∧
      (v.size_ < v.Capacity → (v.copyCtor).Capacity < v.Capacity) := by
  refine ⟨rfl, Vector.mkSized_Capacity d n, rfl, Vector.copyCtor_Capacity v, ?_, ?_⟩
  · rw [(Vector.copyCtor_rep h).elemsO_eq, h.elemsO_eq]
  · intro hlt
    rw [Vector.copyCtor_Capacity]
    exact hlt

/-- C10 witness: `Vector(3)` has size and capacity 3; copying the
one-element array of capacity 2 yields a copy of capacity 1, smaller than
the original's 2. -/
theorem C10_ctor_capacities_witness :
    (Vector.mkSized (0 : Nat) 3).size_ = 3 ∧ (Vector.mkSized (0 : Nat) 3).Capacity = 3 ∧
      ((⟨⟨[some 1, none]⟩, 1⟩ : Vector Nat).copyCtor).size_ =
        (⟨⟨[some 1, none]⟩, 1⟩ : Vector Nat).size_ ∧
      ((⟨⟨[some 1, none]⟩, 1⟩ : Vector Nat).copyCtor).Capacity =
        (⟨⟨[some 1, none]⟩, 1⟩ : Vector Nat).size_ ∧
      ((⟨⟨[some 1, none]⟩, 1⟩ : Vector Nat).copyCtor).elemsO =
        (⟨⟨[some 1, none]⟩, 1⟩ : Vector Nat).elemsO ∧
      ((⟨⟨[some 1, none]⟩, 1⟩ : Vector Nat).size_ <
          (⟨⟨[some 1, none]⟩, 1⟩ : Vector Nat).Capacity →
        ((⟨⟨[some 1, none]⟩, 1⟩ : Vector Nat).copyCtor).Capacity <
          (⟨⟨[some 1, none]⟩, 1⟩ : Vector Nat).Capacity) :=
  C10_ctor_capacities 0 3 (⟨⟨[some 1, none]⟩, 1⟩ : Vector Nat) [1] (by decide)

end VecModel
